import Mathlib

/-!
CPP-Sand-Engine: the simulation step of `src/main.cpp`.

A shallow embedding of the falling-sand step performed by `render()`:
the material table, the two grids, `inBounds`, `initBuffer`, `commitBuffer`,
`canMove`, `move`, the row-major resolution scan, the brush stamp and the
material hotkeys.

Modelling conventions.

* `grid` and `bufferGrid` are `int[WIN_WIDTH][WIN_HEIGHT]`.  A grid is a
  function from a pair of integer indices to the stored `int`; the two
  dimensions are parameters `W H` of every operation (the program fixes
  them to `WIN_WIDTH = 1280 / 4` and `WIN_HEIGHT = 720 / 4`).  Every indexed
  read or write goes through `readCell` / `writeCell`, which fail with
  `Fault.gridIndex` when an index is outside `[0,W) × [0,H)`.
* `materials[id]` goes through `materialAt`, which fails with
  `Fault.tableIndex` when `id` is outside the table (in C++ that read is
  undefined behaviour).
* C `int` arithmetic is modelled on `Int`: the only arithmetic on
  coordinates adds a rule offset (or a brush offset of absolute value at
  most 32) to an index, which cannot overflow 32 bits.
* `inBounds` takes `float` arguments in the source; every call site passes
  `int` values, the conversion is monotone and `0`, `WIN_WIDTH`,
  `WIN_HEIGHT` are exactly representable, so the comparisons are the
  integer comparisons.
* `brushSize` is a `float` that starts at `16` and only ever has the `int`
  `scroll.y` added before being clamped to `[1, 64]`; it is therefore always
  integer valued and is modelled by an `Int`.  For such a value
  `SDL_fmodf(brushSize, 1)` is `0`, `(int)(brushSize / 2)` is the truncating
  quotient, and the test `SDL_sqrtf(x*x + y*y) > brushSize / 2` on
  `|x|, |y| ≤ 32` is equivalent to `4 * (x*x + y*y) > brushSize * brushSize`
  (correctly rounded square root, half-integers are exactly representable).
-/

namespace SandEngine

/-! ## Configuration constants -/

/-- Window width in screen pixels (`#define WIDTH 1280`). -/
def WIDTH : Nat := 1280

/-- Window height in screen pixels (`#define HEIGHT 720`). -/
def HEIGHT : Nat := 720

/-- Screen pixels per simulation cell (`#define PX_SIZE 4`). -/
def PX_SIZE : Nat := 4

/-- Grid width in cells (`#define WIN_WIDTH (WIDTH / PX_SIZE)`). -/
def WIN_WIDTH : Nat := WIDTH / PX_SIZE

/-- Grid height in cells (`#define WIN_HEIGHT (HEIGHT / PX_SIZE)`). -/
def WIN_HEIGHT : Nat := HEIGHT / PX_SIZE

/-! ## Data model -/

/-- The source's `struct coords { int x; int y; }`. -/
structure coords where
  x : Int
  y : Int
deriving DecidableEq, Repr

/-- The source's `struct effect { string type; int params[8]; }`. -/
structure effect where
  type : String
  params : List Int
deriving DecidableEq, Repr

/-- The source's `struct Material`: name, colour (r, g, b), the eight
`{check, move}` rule pairs and the sixteen effects. -/
structure Material where
  name : String
  color : Nat × Nat × Nat
  rules : List (coords × coords)
  effects : List effect
deriving DecidableEq, Repr

/-- A value-initialised rule slot `{{0, 0}, {0, 0}}`. -/
def zeroRule : coords × coords := (⟨0, 0⟩, ⟨0, 0⟩)

/-- A value-initialised effect slot (empty string, eight zero parameters). -/
def zeroEffect : effect := ⟨"", List.replicate 8 0⟩

/-- The table `Material materials[4]`.  Only three initialisers are given, so
the fourth entry is value-initialised; rule and effect slots that are not
written out are value-initialised too (`rules[8][2]`, `effects[16]`). -/
def materials : List Material :=
  [ ⟨"Eraser", (0, 0, 0), List.replicate 8 zeroRule, List.replicate 16 zeroEffect⟩,
    ⟨"Wall", (127, 127, 127), List.replicate 8 zeroRule, List.replicate 16 zeroEffect⟩,
    ⟨"Sand", (255, 255, 200),
      [(⟨0, 1⟩, ⟨0, 1⟩), (⟨-1, 0⟩, ⟨-1, 1⟩), (⟨1, 0⟩, ⟨1, 1⟩)] ++ List.replicate 5 zeroRule,
      List.replicate 16 zeroEffect⟩,
    ⟨"", (0, 0, 0), List.replicate 8 zeroRule, List.replicate 16 zeroEffect⟩ ]

/-- The source's `int materialsLength = lengthOf(materials)`. -/
def materialsLength : Int := materials.length

/-- The material selection keys `string matKeys[11]`. -/
def matKeys : List String := ["`", "1", "2", "3", "4", "5", "6", "7", "8", "9", "0"]

/-- The source's `int matKeysLength = lengthOf(matKeys)`. -/
def matKeysLength : Int := matKeys.length

/-- Contents of `grid` or `bufferGrid`, indexed `[x][y]`. -/
abbrev Grid := Int → Int → Int

/-- The two ways an indexed access of the step can leave its array. -/
inductive Fault where
  | gridIndex
  | tableIndex
deriving DecidableEq, Repr

/-- The source's `inBounds(x, y)` with the grid dimensions as parameters. -/
def inBounds (W H : Nat) (x y : Int) : Bool :=
  decide (x ≥ 0) && decide (y ≥ 0) && decide (x < (W : Int)) && decide (y < (H : Int))

/-- An indexed read `a[x][y]`. -/
def readCell (W H : Nat) (a : Grid) (x y : Int) : Except Fault Int :=
  if inBounds W H x y then .ok (a x y) else .error .gridIndex

/-- The array `a` with the cell `(x, y)` replaced by `v`. -/
def setCell (a : Grid) (x y v : Int) : Grid :=
  fun i j => if i = x ∧ j = y then v else a i j

/-- An indexed write `a[x][y] = v`. -/
def writeCell (W H : Nat) (a : Grid) (x y v : Int) : Except Fault Grid :=
  if inBounds W H x y then .ok (setCell a x y v) else .error .gridIndex

/-- An indexed read `materials[id]`. -/
def materialAt (id : Int) : Except Fault Material :=
  if 0 ≤ id then
    match materials[id.toNat]? with
    | some mat => .ok mat
    | none => .error .tableIndex
  else .error .tableIndex

/-- The source's `initBuffer`: `memcpy(bufferGrid, grid, sizeof(bufferGrid))`. -/
def initBuffer (grid : Grid) : Grid := grid

/-- The source's `commitBuffer`: `memcpy(grid, bufferGrid, sizeof(grid))`. -/
def commitBuffer (bufferGrid : Grid) : Grid := bufferGrid

/-! ## Movement -/

/-- The source's `canMove(rule, x, y)`, reading the global `grid`. -/
def canMove (W H : Nat) (grid : Grid) (rule : coords) (x y : Int) : Except Fault Bool :=
  let fx := x + rule.x
  let fy := y + rule.y
  if !inBounds W H fx fy then .ok false
  else do
    let v ← readCell W H grid fx fy
    pure (v == 0)

/-- The source's `move(rule, x, y)`: the returned pair is the `bool` result and
the new contents of `bufferGrid`. -/
def move (W H : Nat) (grid bufferGrid : Grid) (rule : coords) (x y : Int) :
    Except Fault (Bool × Grid) := do
  let fx := x + rule.x
  let fy := y + rule.y
  let ok ← canMove W H grid rule x y
  if !ok then pure (false, bufferGrid)
  else
    let src ← readCell W H grid x y
    let b1 ← writeCell W H bufferGrid fx fy src
    let dst ← readCell W H grid fx fy
    let b2 ← writeCell W H b1 x y dst
    pure (true, b2)

/-- The rule loop of `render` for one cell:
`for (j ...) if (canMove(rules[j][0], x, y)) if (move(rules[j][1], x, y)) break;`. -/
def applyRules (W H : Nat) (grid : Grid) :
    List (coords × coords) → Grid → Int → Int → Except Fault Grid
  | [], bufferGrid, _, _ => pure bufferGrid
  | r :: rest, bufferGrid, x, y => do
    let c ← canMove W H grid r.1 x y
    if c then
      let res ← move W H grid bufferGrid r.2 x y
      if res.1 then pure res.2
      else applyRules W H grid rest res.2 x y
    else applyRules W H grid rest bufferGrid x y

/-- The body of the scan of `render` for the cell `(x, y)`. -/
def scanCell (W H : Nat) (grid bufferGrid : Grid) (x y : Int) : Except Fault Grid := do
  let id ← readCell W H grid x y
  if id ≤ 0 then pure bufferGrid
  else
    let mat ← materialAt id
    applyRules W H grid mat.rules bufferGrid x y

/-- One row of the scan: `for (int x = 0; x < WIN_WIDTH; x++)`. -/
def scanRow (W H : Nat) (grid bufferGrid : Grid) (y : Int) : Except Fault Grid :=
  (List.range W).foldlM (fun b (x : Nat) => scanCell W H grid b (x : Int) y) bufferGrid

/-- The resolution pass of `render`: `initBuffer()` followed by the row-major
scan `for (int y = 0; y < WIN_HEIGHT; y++) for (int x = 0; ...)`.  The result
is the scratch buffer before the brush and before `commitBuffer()`. -/
def resolve (W H : Nat) (grid : Grid) : Except Fault Grid :=
  (List.range H).foldlM (fun b (y : Nat) => scanRow W H grid b (y : Int)) (initBuffer grid)

/-! ## Brush and frame -/

/-- The source's `SDL_clamp(x, a, b)`. -/
def SDL_clamp (x a b : Int) : Int := if x < a then a else if x > b then b else x

/-- The source's `SDL_min(x, y)`. -/
def SDL_min (x y : Int) : Int := if x < y then x else y

/-- The integers `lo, lo + 1, ..., hi` of a loop `for (v = lo; v <= hi; v++)`. -/
def loopRange (lo hi : Int) : List Int :=
  (List.range (hi + 1 - lo).toNat).map (fun (i : Nat) => lo + (i : Int))

/-- The body of the inner brush loop for the offset `(x, y)`. -/
def brushCell (W H : Nat) (bufferGrid : Grid) (material brushSize : Int) (m : coords)
    (x y : Int) : Except Fault Grid :=
  let dx := m.x + x
  let dy := m.y + y
  if !inBounds W H dx dy then pure bufferGrid
  else if 4 * (x * x + y * y) > brushSize * brushSize then pure bufferGrid
  else writeCell W H bufferGrid dx dy material

/-- The block guarded by `leftMouse && inBounds(m.x, m.y)`: the two nested
offset loops and the unconditional write of the centre cell. -/
def brush (W H : Nat) (bufferGrid : Grid) (material brushSize : Int) (m : coords) :
    Except Fault Grid := do
  let half := Int.tdiv brushSize 2
  let stop := half - Int.tmod brushSize 1
  let b ← (loopRange (-half) stop).foldlM
    (fun b x => (loopRange (-half) stop).foldlM
      (fun b y => brushCell W H b material brushSize m x y) b) bufferGrid
  writeCell W H b m.x m.y material

/-- The simulation state that survives between frames. -/
structure Sim where
  grid : Grid
  material : Int
  brushSize : Int

/-- What the event loop hands to one frame: the answer of `key(name)` for each
key name, the left mouse button, the scroll vector and the mouse position in
screen pixels. -/
structure Input where
  key : String → Bool
  leftMouse : Bool
  scroll : coords
  mouse : coords

/-- The hotkey loop at the top of `render`:
`for (i < SDL_min(matKeysLength, materialsLength)) if (key(matKeys[i])) material = i;`. -/
def selectMaterial (key : String → Bool) (material : Int) : Int :=
  (List.range (SDL_min matKeysLength materialsLength).toNat).foldl
    (fun mat i => if key (matKeys.getD i "") then (i : Int) else mat) material

/-- The simulation part of `render()`: hotkeys, `initBuffer`, the resolution
scan, the brush size update, the brush stamp and `commitBuffer`.  The drawing
that follows only reads the committed grid. -/
def render (W H : Nat) (s : Sim) (inp : Input) : Except Fault Sim := do
  let material := selectMaterial inp.key s.material
  let b ← resolve W H s.grid
  let brushSize := SDL_clamp (s.brushSize + inp.scroll.y) 1 64
  let m : coords := ⟨Int.tdiv inp.mouse.x PX_SIZE, Int.tdiv inp.mouse.y PX_SIZE⟩
  let b ← if inp.leftMouse && inBounds W H m.x m.y then brush W H b material brushSize m
          else pure b
  pure ⟨commitBuffer b, material, brushSize⟩

/-- Consecutive frames, one per input. -/
def frames (W H : Nat) (s : Sim) (inputs : List Input) : Except Fault Sim :=
  inputs.foldlM (render W H) s

/-- The cells of the grid in the order the scan visits them. -/
def scanOrder (W H : Nat) : List (Int × Int) :=
  (List.range H).flatMap (fun (y : Nat) => (List.range W).map (fun (x : Nat) => ((x : Int), (y : Int))))

/-- Number of cells of the `W × H` grid that hold the id `m`. -/
def countCells (W H : Nat) (a : Grid) (m : Int) : Nat :=
  ((scanOrder W H).filter (fun c => decide (a c.1 c.2 = m))).length

/-- Two arrays hold the same value in every cell of the `W × H` grid. -/
def SameCells (W H : Nat) (a b : Grid) : Prop :=
  ∀ x y, inBounds W H x y = true → a x y = b x y

/-- Every cell of the grid holds a material id, `0 ≤ id < materialsLength`. -/
def ValidIds (W H : Nat) (grid : Grid) : Prop :=
  ∀ x y, inBounds W H x y = true → 0 ≤ grid x y ∧ grid x y < materialsLength

/-! ## Pure readings of the movement code -/

/-- A cell is free when it is on the grid and holds `0`. -/
def free (W H : Nat) (grid : Grid) (x y : Int) : Bool :=
  inBounds W H x y && (grid x y == 0)

/-- The Boolean an occupancy check produced (`false` when it faulted). -/
def holds : Except Fault Bool → Bool
  | .ok b => b
  | .error _ => false

/-- A rule succeeds at `(x, y)` when `canMove` holds for its check offset and
for its move offset. -/
def succeeds (W H : Nat) (grid : Grid) (x y : Int) (r : coords × coords) : Bool :=
  holds (canMove W H grid r.1 x y) && holds (canMove W H grid r.2 x y)

/-- The scratch buffer after the cell `(x, y)` relocated along the offset `o`. -/
def relocate (grid bufferGrid : Grid) (x y : Int) (o : coords) : Grid :=
  setCell (setCell bufferGrid (x + o.x) (y + o.y) (grid x y)) x y (grid (x + o.x) (y + o.y))

/-- Every cell of the grid holds an id the scan may look up in `materials`. -/
def TableSafe (W H : Nat) (grid : Grid) : Prop :=
  ∀ x y, inBounds W H x y = true → grid x y < materialsLength

/-- The rule list the scan uses for the id of a cell. -/
def rulesOf (id : Int) : List (coords × coords) :=
  match materialAt id with
  | .ok mat => mat.rules
  | .error _ => []

/-- Where the occupied cell `(x, y)` relocates to in this pass, if anywhere:
the move target of the first rule of its material that succeeds. -/
def target (W H : Nat) (grid : Grid) (x y : Int) : Option (Int × Int) :=
  if inBounds W H x y && decide (0 < grid x y) then
    ((rulesOf (grid x y)).find? (succeeds W H grid x y)).map
      (fun r => (x + r.2.x, y + r.2.y))
  else none

/-- Effect of scanning the cell `c` on the scratch buffer. -/
def stepCell (W H : Nat) (grid : Grid) (b : Grid) (c : Int × Int) : Grid :=
  match target W H grid c.1 c.2 with
  | none => b
  | some t => setCell (setCell b t.1 t.2 (grid c.1 c.2)) c.1 c.2 0

/-- The scratch buffer after the whole resolution scan, cell by cell. -/
def resolved (W H : Nat) (grid : Grid) : Grid := fun i j =>
  if (target W H grid i j).isSome then 0
  else if target W H grid i (j - 1) = some (i, j) ∨ target W H grid (i + 1) (j - 1) = some (i, j)
      ∨ target W H grid (i - 1) (j - 1) = some (i, j) then 2
  else grid i j

/-! ## Scenario grids -/

/-- Sand at `(0,0)` and `(2,0)`, Wall at `(0,1)` and `(2,1)`, every other cell
empty: both Sand cells slide diagonally into `(1,1)`. -/
def clashGrid : Grid := fun x y =>
  if x = 0 ∧ y = 0 then 2 else if x = 2 ∧ y = 0 then 2
  else if x = 0 ∧ y = 1 then 1 else if x = 2 ∧ y = 1 then 1 else 0

/-- A grid that is empty except for one Sand particle at `(x, y)`. -/
def sandAt (x y : Int) : Grid := fun i j => if i = x ∧ j = y then 2 else 0

/-- Sand at `(4,5)` and `(5,5)`, Wall at `(5,6)`, every other cell empty. -/
def slideGrid : Grid := fun x y =>
  if x = 4 ∧ y = 5 then 2 else if x = 5 ∧ y = 5 then 2 else if x = 5 ∧ y = 6 then 1 else 0

/-- Where the content of the cell `s` is after the scan. -/
def destOf (W H : Nat) (grid : Grid) (s : Int × Int) : Int × Int :=
  (target W H grid s.1 s.2).getD s

/-- The scratch buffer after the brush block ran with centre `m`, brush size
`r` and material `mat`, cell by cell. -/
def stamped (W H : Nat) (b : Grid) (mat r : Int) (m : coords) : Grid := fun i j =>
  if (i = m.x ∧ j = m.y) ∨
      (inBounds W H i j = true ∧ -(Int.tdiv r 2) ≤ i - m.x ∧ i - m.x ≤ Int.tdiv r 2 ∧
        -(Int.tdiv r 2) ≤ j - m.y ∧ j - m.y ≤ Int.tdiv r 2 ∧
        4 * ((i - m.x) * (i - m.x) + (j - m.y) * (j - m.y)) ≤ r * r)
  then mat else b i j

/-- The pointer's grid cell, `{ mouse.x / PX_SIZE, mouse.y / PX_SIZE }`. -/
def pointerCell (inp : Input) : coords :=
  ⟨Int.tdiv inp.mouse.x PX_SIZE, Int.tdiv inp.mouse.y PX_SIZE⟩

/-- An input with no key pressed, no button held, no scroll and the pointer at
the window origin. -/
def idle : Input := ⟨fun _ => false, false, ⟨0, 0⟩, ⟨0, 0⟩⟩

/-- An indexed read `table[id]` of a material table. -/
def materialIn (table : List Material) (id : Int) : Except Fault Material :=
  if 0 ≤ id then
    match table[id.toNat]? with
    | some mat => .ok mat
    | none => .error .tableIndex
  else .error .tableIndex

/-- The source's `isLiquid(i)` with the contents of the material table as a
parameter: `table` stands for `materials` and `table.length` for
`materialsLength = lengthOf(materials)`. -/
def isLiquidIn (table : List Material) (i : Int) : Except Fault Bool :=
  if i ≤ 0 || i ≥ (table.length : Int) then pure false
  else do
    let mat ← materialIn table i
    match mat.effects[0]? with
    | some e => pure (e.type == "Liquid")
    | none => .error .tableIndex

/-- The source's `isLiquid(i)`, on the program's table `materials`. -/
def isLiquid (i : Int) : Except Fault Bool := isLiquidIn materials i

/-- A material table with the shape of `materials` that also has effects: the
eraser, a material whose first effect is `"Liquid"`, and one whose first effect
is `"Solid"`. -/
def liquidTable : List Material :=
  [ ⟨"Eraser", (0, 0, 0), List.replicate 8 zeroRule, List.replicate 16 zeroEffect⟩,
    ⟨"Water", (0, 0, 255), List.replicate 8 zeroRule,
      ⟨"Liquid", List.replicate 8 0⟩ :: List.replicate 15 zeroEffect⟩,
    ⟨"Stone", (90, 90, 90), List.replicate 8 zeroRule,
      ⟨"Solid", List.replicate 8 0⟩ :: List.replicate 15 zeroEffect⟩ ]

/-- An empty grid with the id `v` in the cell `(1, 1)`. -/
def oddGrid (v : Int) : Grid := fun x y => if x = 1 ∧ y = 1 then v else 0

/-- The resolution scan of `render` with the cells visited in the given order
instead of row by row. -/
def resolveIn (W H : Nat) (grid : Grid) (order : List (Int × Int)) : Except Fault Grid :=
  order.foldlM (fun b c => scanCell W H grid b c.1 c.2) (initBuffer grid)

/-- The measure `P`: the sum over all Sand cells `(x, y)` of `H - 1 - y`. -/
def potential (W H : Nat) (grid : Grid) : Nat :=
  (((scanOrder W H).filter (fun c => decide (grid c.1 c.2 = 2))).map
    (fun c => ((H : Int) - 1 - c.2).toNat)).sum

/-! ## The movement code computes its pure reading -/

theorem inBounds_iff (W H : Nat) (x y : Int) :
    inBounds W H x y = true ↔ 0 ≤ x ∧ 0 ≤ y ∧ x < W ∧ y < H := by
  simp [inBounds, and_assoc]

theorem canMove_eq (W H : Nat) (grid : Grid) (rule : coords) (x y : Int) :
    canMove W H grid rule x y = .ok (free W H grid (x + rule.x) (y + rule.y)) := by
  unfold canMove free readCell
  by_cases h : inBounds W H (x + rule.x) (y + rule.y) = true
  · simp [h, bind, Except.bind, pure, Except.pure]
  · simp [h]

theorem holds_canMove (W H : Nat) (grid : Grid) (rule : coords) (x y : Int) :
    holds (canMove W H grid rule x y) = free W H grid (x + rule.x) (y + rule.y) := by
  rw [canMove_eq]; rfl

theorem move_eq (W H : Nat) (grid bufferGrid : Grid) (rule : coords) (x y : Int)
    (hxy : inBounds W H x y = true) :
    move W H grid bufferGrid rule x y =
      .ok (if free W H grid (x + rule.x) (y + rule.y)
        then (true, relocate grid bufferGrid x y rule) else (false, bufferGrid)) := by
  unfold move
  rw [canMove_eq]
  by_cases h : free W H grid (x + rule.x) (y + rule.y) = true
  · have hb : inBounds W H (x + rule.x) (y + rule.y) = true := by
      unfold free at h; simp at h; exact h.1
    simp [h, hb, hxy, readCell, writeCell, relocate, bind, Except.bind, pure, Except.pure]
  · simp [h, bind, Except.bind, pure, Except.pure]

theorem applyRules_eq (W H : Nat) (grid : Grid) (rules : List (coords × coords))
    (bufferGrid : Grid) (x y : Int) (hxy : inBounds W H x y = true) :
    applyRules W H grid rules bufferGrid x y =
      .ok (match rules.find? (succeeds W H grid x y) with
        | none => bufferGrid
        | some r => relocate grid bufferGrid x y r.2) := by
  induction rules generalizing bufferGrid with
  | nil => rfl
  | cons r rest ih =>
    unfold applyRules
    rw [canMove_eq, move_eq W H grid bufferGrid r.2 x y hxy]
    by_cases h1 : free W H grid (x + r.1.x) (y + r.1.y) = true
    · by_cases h2 : free W H grid (x + r.2.x) (y + r.2.y) = true
      · simp [h1, h2, succeeds, holds_canMove, List.find?, bind, Except.bind, pure, Except.pure]
      · simp [h1, h2, succeeds, holds_canMove, List.find?, bind, Except.bind, ih]
    · simp [h1, succeeds, holds_canMove, List.find?, bind, Except.bind, ih]

theorem succeeds_iff (W H : Nat) (grid : Grid) (x y : Int) (r : coords × coords) :
    succeeds W H grid x y r = true ↔
      free W H grid (x + r.1.x) (y + r.1.y) = true ∧ free W H grid (x + r.2.x) (y + r.2.y) = true := by
  simp [succeeds, holds_canMove]

theorem free_iff (W H : Nat) (grid : Grid) (x y : Int) :
    free W H grid x y = true ↔ inBounds W H x y = true ∧ grid x y = 0 := by
  simp [free]

theorem target_spec {W H : Nat} {grid : Grid} {x y : Int} {t : Int × Int}
    (h : target W H grid x y = some t) :
    inBounds W H x y = true ∧ 0 < grid x y ∧ inBounds W H t.1 t.2 = true ∧ grid t.1 t.2 = 0 := by
  unfold target at h
  by_cases hc : (inBounds W H x y && decide (0 < grid x y)) = true
  · rw [if_pos hc] at h
    simp only [Bool.and_eq_true, decide_eq_true_eq] at hc
    rcases Option.map_eq_some'.mp h with ⟨r, hr, rfl⟩
    have hs := List.find?_some hr
    rw [succeeds_iff, free_iff, free_iff] at hs
    exact ⟨hc.1, hc.2, hs.2.1, hs.2.2⟩
  · rw [if_neg hc] at h; cases h

theorem materialAt_ok {id : Int} (h0 : 0 < id) (h1 : id < materialsLength) :
    ∃ mat, materialAt id = .ok mat := by
  have h1 : id < 4 := h1
  have : id = 1 ∨ id = 2 ∨ id = 3 := by omega
  rcases this with rfl | rfl | rfl <;> exact ⟨_, rfl⟩

theorem scanCell_eq (W H : Nat) (grid b : Grid) (x y : Int)
    (hxy : inBounds W H x y = true) (hs : grid x y < materialsLength) :
    scanCell W H grid b x y = .ok (stepCell W H grid b (x, y)) := by
  unfold scanCell stepCell target
  simp only [readCell, hxy, if_true, bind, Except.bind, Bool.true_and]
  by_cases h0 : grid x y ≤ 0
  · have : ¬ (0 < grid x y) := by omega
    simp [h0, this, pure, Except.pure]
  · have hpos : 0 < grid x y := by omega
    obtain ⟨mat, hm⟩ := materialAt_ok hpos hs
    simp only [h0, if_false, hm, rulesOf, applyRules_eq W H grid mat.rules b x y hxy,
      decide_eq_true hpos, if_true]
    cases hf : mat.rules.find? (succeeds W H grid x y) with
    | none => rfl
    | some r =>
      have hsu := List.find?_some hf
      rw [succeeds_iff, free_iff, free_iff] at hsu
      simp [relocate, hsu.2.2]

theorem foldlM_ok {α β : Type} (f : β → α → Except Fault β) (g : β → α → β) (l : List α)
    (h : ∀ a ∈ l, ∀ b, f b a = .ok (g b a)) (b : β) :
    l.foldlM f b = .ok (l.foldl g b) := by
  induction l generalizing b with
  | nil => rfl
  | cons a l ih =>
    rw [List.foldlM_cons, h a (List.mem_cons_self _ _) b]
    simp only [bind, Except.bind, List.foldl_cons]
    exact ih (fun a ha b => h a (List.mem_cons_of_mem _ ha) b) _

theorem foldl_scanOrder {β : Type} (W : Nat) (g : β → Int × Int → β) (ys : List Nat) (b : β) :
    (ys.flatMap (fun (y : Nat) => (List.range W).map (fun (x : Nat) => ((x : Int), (y : Int))))).foldl g b =
      ys.foldl (fun b (y : Nat) => (List.range W).foldl (fun b (x : Nat) => g b ((x : Int), (y : Int))) b) b := by
  induction ys generalizing b with
  | nil => rfl
  | cons y ys ih =>
    rw [List.flatMap_cons, List.foldl_append, List.foldl_map, List.foldl_cons, ih]

theorem mem_scanOrder (W H : Nat) (c : Int × Int) :
    c ∈ scanOrder W H ↔ inBounds W H c.1 c.2 = true := by
  rw [inBounds_iff]
  unfold scanOrder
  simp only [List.mem_flatMap, List.mem_range, List.mem_map]
  constructor
  · rintro ⟨y, hy, x, hx, rfl⟩
    simp only
    omega
  · rintro ⟨h1, h2, h3, h4⟩
    refine ⟨c.2.toNat, by omega, c.1.toNat, by omega, ?_⟩
    ext <;> simp <;> omega

theorem resolve_eq (W H : Nat) (grid : Grid) (hs : TableSafe W H grid) :
    resolve W H grid = .ok ((scanOrder W H).foldl (stepCell W H grid) grid) := by
  unfold resolve scanOrder
  rw [foldl_scanOrder]
  apply foldlM_ok
  intro y hy b
  unfold scanRow
  apply foldlM_ok
  intro x hx b
  have hb : inBounds W H (x : Int) (y : Int) = true := by
    rw [inBounds_iff]
    simp only [List.mem_range] at hx hy
    omega
  exact scanCell_eq W H grid b x y hb (hs _ _ hb)

theorem stepCell_apply (W H : Nat) (grid b : Grid) (s : Int × Int) (i j : Int) :
    stepCell W H grid b s i j =
      if (target W H grid s.1 s.2).isSome ∧ (i, j) = s then 0
      else if target W H grid s.1 s.2 = some (i, j) then grid s.1 s.2 else b i j := by
  unfold stepCell
  cases ht : target W H grid s.1 s.2 with
  | none => simp
  | some t =>
    obtain ⟨s1, s2⟩ := s
    obtain ⟨t1, t2⟩ := t
    simp only [setCell, Option.isSome_some, true_and, Prod.mk.injEq, Option.some.injEq]
    by_cases h1 : i = s1 ∧ j = s2
    · simp [h1]
    · by_cases h2 : i = t1 ∧ j = t2
      · simp [h1, h2]
      · have h3 : ¬ (t1 = i ∧ t2 = j) := fun h => h2 ⟨h.1.symm, h.2.symm⟩
        simp [h1, h2, h3]

/-- A cell nobody moves into and that does not move keeps its scratch value. -/
theorem sweep_untouched (W H : Nat) (grid : Grid) (l : List (Int × Int)) (b : Grid) (i j : Int)
    (hno : ∀ s ∈ l, target W H grid s.1 s.2 ≠ some (i, j))
    (hd : target W H grid i j = none) :
    l.foldl (stepCell W H grid) b i j = b i j := by
  induction l generalizing b with
  | nil => rfl
  | cons s l ih =>
    rw [List.foldl_cons, ih _ (fun s hs => hno s (List.mem_cons_of_mem _ hs)), stepCell_apply]
    have h1 := hno s (List.mem_cons_self _ _)
    have h2 : ¬ ((target W H grid s.1 s.2).isSome ∧ (i, j) = s) := by
      rintro ⟨h, rfl⟩
      rw [hd] at h; cases h
    simp [h1, h2]

/-- Once a moving cell has been vacated it stays `0`. -/
theorem sweep_vacated (W H : Nat) (grid : Grid) (l : List (Int × Int)) (b : Grid) (i j : Int)
    (hno : ∀ s ∈ l, target W H grid s.1 s.2 ≠ some (i, j)) (hb : b i j = 0) :
    l.foldl (stepCell W H grid) b i j = 0 := by
  induction l generalizing b with
  | nil => exact hb
  | cons s l ih =>
    rw [List.foldl_cons]
    apply ih _ (fun s hs => hno s (List.mem_cons_of_mem _ hs))
    rw [stepCell_apply]
    have h1 := hno s (List.mem_cons_self _ _)
    by_cases h2 : (target W H grid s.1 s.2).isSome ∧ (i, j) = s
    · simp [h2]
    · simp [h1, h2, hb]

/-- A cell that moves holds `0` after the scan. -/
theorem sweep_mover (W H : Nat) (grid : Grid) (l : List (Int × Int)) (b : Grid) (i j : Int)
    (hmem : (i, j) ∈ l) (hd : (target W H grid i j).isSome = true) :
    l.foldl (stepCell W H grid) b i j = 0 := by
  have hno : ∀ (l : List (Int × Int)), ∀ s ∈ l, target W H grid s.1 s.2 ≠ some (i, j) := by
    intro l s _ hs
    have h0 := (target_spec hs).2.2.2
    obtain ⟨t, ht⟩ := Option.isSome_iff_exists.mp hd
    have := (target_spec ht).2.1
    simp only at h0
    omega
  induction l generalizing b with
  | nil => cases hmem
  | cons s l ih =>
    rw [List.foldl_cons]
    rcases List.mem_cons.mp hmem with h | h
    · apply sweep_vacated W H grid l _ i j (hno l)
      rw [stepCell_apply, ← h]
      simp [hd]
    · exact ih _ h

/-- A free cell that is the target of some scanned cell, all of whose movers
carry the id `v`, holds `v` after the scan. -/
theorem sweep_filled (W H : Nat) (grid : Grid) (l : List (Int × Int)) (b : Grid) (i j v : Int)
    (hv : ∀ s ∈ l, target W H grid s.1 s.2 = some (i, j) → grid s.1 s.2 = v)
    (hd : target W H grid i j = none)
    (hex : (∃ s ∈ l, target W H grid s.1 s.2 = some (i, j)) ∨ b i j = v) :
    l.foldl (stepCell W H grid) b i j = v := by
  induction l generalizing b with
  | nil =>
    rcases hex with ⟨s, hs, _⟩ | h
    · cases hs
    · exact h
  | cons s l ih =>
    rw [List.foldl_cons]
    apply ih _ (fun s hs => hv s (List.mem_cons_of_mem _ hs))
    have h2 : ¬ ((target W H grid s.1 s.2).isSome ∧ (i, j) = s) := by
      rintro ⟨h, rfl⟩
      rw [hd] at h; cases h
    by_cases h1 : target W H grid s.1 s.2 = some (i, j)
    · right
      rw [stepCell_apply, if_neg h2, if_pos h1]
      exact hv s (List.mem_cons_self _ _) h1
    · rcases hex with ⟨s', hs', hts⟩ | h
      · rcases List.mem_cons.mp hs' with rfl | hs'
        · exact absurd hts h1
        · exact Or.inl ⟨s', hs', hts⟩
      · right
        rw [stepCell_apply]
        simp [h1, h2, h]

theorem rulesOf_large {id : Int} (h : 4 ≤ id) : rulesOf id = [] := by
  unfold rulesOf materialAt
  have h0 : 0 ≤ id := by omega
  have hn : materials[id.toNat]? = none := by
    apply List.getElem?_eq_none
    have : materials.length = 4 := rfl
    omega
  simp [h0, hn]

theorem succeeds_zeroRule {W H : Nat} {grid : Grid} {x y : Int} (h : grid x y ≠ 0) :
    succeeds W H grid x y zeroRule = false := by
  simp [succeeds, holds_canMove, zeroRule, free, h]

theorem find_replicate_zeroRule {W H : Nat} {grid : Grid} {x y : Int} (h : grid x y ≠ 0)
    (n : Nat) : (List.replicate n zeroRule).find? (succeeds W H grid x y) = none := by
  rw [List.find?_eq_none]
  intro r hr
  rw [List.eq_of_mem_replicate hr, succeeds_zeroRule h]
  simp

/-- With the program's table only Sand (id 2) ever relocates. -/
theorem target_eq_none_of_ne {W H : Nat} {grid : Grid} {x y : Int} (h : grid x y ≠ 2) :
    target W H grid x y = none := by
  unfold target
  by_cases hc : (inBounds W H x y && decide (0 < grid x y)) = true
  · rw [if_pos hc]
    simp only [Bool.and_eq_true, decide_eq_true_eq] at hc
    have hne : grid x y ≠ 0 := by omega
    have hcases : grid x y = 1 ∨ grid x y = 3 ∨ 4 ≤ grid x y := by omega
    rcases hcases with h1 | h3 | h4
    · have : rulesOf (grid x y) = List.replicate 8 zeroRule := by rw [h1]; rfl
      rw [this, find_replicate_zeroRule hne]; rfl
    · have : rulesOf (grid x y) = List.replicate 8 zeroRule := by rw [h3]; rfl
      rw [this, find_replicate_zeroRule hne]; rfl
    · rw [rulesOf_large h4]; rfl
  · rw [if_neg hc]

/-- The move target of a Sand cell, rule by rule. -/
theorem target_sand {W H : Nat} {grid : Grid} {x y : Int}
    (hb : inBounds W H x y = true) (h : grid x y = 2) :
    target W H grid x y =
      if free W H grid x (y + 1) then some (x, y + 1)
      else if free W H grid (x - 1) y && free W H grid (x - 1) (y + 1) then some (x - 1, y + 1)
      else if free W H grid (x + 1) y && free W H grid (x + 1) (y + 1) then some (x + 1, y + 1)
      else none := by
  unfold target
  have hne : grid x y ≠ 0 := by omega
  have hr : rulesOf 2 =
      [(⟨0, 1⟩, ⟨0, 1⟩), (⟨-1, 0⟩, ⟨-1, 1⟩), (⟨1, 0⟩, ⟨1, 1⟩)] ++ List.replicate 5 zeroRule := rfl
  have hz := @find_replicate_zeroRule W H grid x y hne 5
  simp only [hb, h, hr, Bool.true_and, decide_eq_true_eq, show (0 : Int) < 2 by decide, if_true,
    List.cons_append, List.nil_append, List.find?_cons, succeeds, holds_canMove, add_zero,
    Bool.and_self, hz, decide_True]
  have e1 : x + -1 = x - 1 := by ring
  rw [e1]
  by_cases h1 : free W H grid x (y + 1) = true
  · simp [h1]
  · by_cases h2 : (free W H grid (x - 1) y && free W H grid (x - 1) (y + 1)) = true
    · simp [h1, h2, e1]
    · by_cases h3 : (free W H grid (x + 1) y && free W H grid (x + 1) (y + 1)) = true
      · simp [h1, h2, h3]
      · simp [h1, h2, h3]

/-- A move target is one row below its source, at most one column away. -/
theorem target_near {W H : Nat} {grid : Grid} {x y : Int} {t : Int × Int}
    (h : target W H grid x y = some t) :
    grid x y = 2 ∧ t.2 = y + 1 ∧ (t.1 = x ∨ t.1 = x - 1 ∨ t.1 = x + 1) := by
  have h2 : grid x y = 2 := by
    by_contra hne
    rw [target_eq_none_of_ne hne] at h; cases h
  have hb := (target_spec h).1
  rw [target_sand hb h2] at h
  refine ⟨h2, ?_⟩
  split at h
  · cases h; simp
  · split at h
    · cases h; simp
    · split at h
      · cases h; simp
      · cases h

theorem resolve_spec (W H : Nat) (grid : Grid) (hs : TableSafe W H grid) :
    resolve W H grid = .ok (resolved W H grid) := by
  rw [resolve_eq W H grid hs]
  congr 1
  funext i j
  unfold resolved
  by_cases hm : (target W H grid i j).isSome = true
  · rw [if_pos hm]
    obtain ⟨t, ht⟩ := Option.isSome_iff_exists.mp hm
    exact sweep_mover W H grid _ _ i j ((mem_scanOrder W H (i, j)).mpr (target_spec ht).1) hm
  · rw [if_neg hm]
    have hd : target W H grid i j = none := by
      cases h : target W H grid i j with
      | none => rfl
      | some t => rw [h] at hm; simp at hm
    have hsrc : ∀ s : Int × Int, target W H grid s.1 s.2 = some (i, j) →
        s = (i, j - 1) ∨ s = (i + 1, j - 1) ∨ s = (i - 1, j - 1) := by
      intro s hs
      obtain ⟨_, h2, h3⟩ := target_near hs
      obtain ⟨s1, s2⟩ := s
      simp only [Prod.mk.injEq] at h2 h3 ⊢
      omega
    by_cases hex : target W H grid i (j - 1) = some (i, j) ∨
        target W H grid (i + 1) (j - 1) = some (i, j) ∨ target W H grid (i - 1) (j - 1) = some (i, j)
    · rw [if_pos hex]
      apply sweep_filled W H grid _ _ i j 2 (fun s _ h => (target_near h).1) hd
      left
      rcases hex with h | h | h
      · exact ⟨(i, j - 1), (mem_scanOrder W H _).mpr (target_spec h).1, h⟩
      · exact ⟨(i + 1, j - 1), (mem_scanOrder W H _).mpr (target_spec h).1, h⟩
      · exact ⟨(i - 1, j - 1), (mem_scanOrder W H _).mpr (target_spec h).1, h⟩
    · rw [if_neg hex]
      apply sweep_untouched W H grid _ _ i j _ hd
      intro s _ hts
      apply hex
      rcases hsrc s hts with rfl | rfl | rfl
      · exact Or.inl hts
      · exact Or.inr (Or.inl hts)
      · exact Or.inr (Or.inr hts)

/-! ## Counting cells -/

theorem nodup_scanOrder (W H : Nat) : (scanOrder W H).Nodup := by
  unfold scanOrder
  rw [List.nodup_flatMap]
  constructor
  · intro y _
    apply (List.nodup_range W).map
    intro a b h
    simpa using h
  · apply (List.nodup_range H).pairwise_of_forall_ne
    intro a _ b _ hab
    simp only [Function.onFun, List.disjoint_left, List.mem_map, List.mem_range]
    rintro c ⟨x, _, rfl⟩ ⟨x', _, h⟩
    simp only [Prod.mk.injEq, Nat.cast_inj] at h
    exact hab h.2.symm

/-- The cells of the grid as a finite set. -/
theorem countCells_eq_card (W H : Nat) (a : Grid) (m : Int) :
    countCells W H a m =
      ((scanOrder W H).toFinset.filter (fun c => a c.1 c.2 = m)).card := by
  unfold countCells
  rw [← List.toFinset_card_of_nodup ((nodup_scanOrder W H).filter _), List.toFinset_filter]
  congr 1
  ext c
  simp


theorem target_none_of_nonpos {W H : Nat} {grid : Grid} {x y : Int} (h : grid x y ≤ 0) :
    target W H grid x y = none :=
  target_eq_none_of_ne (by omega)

/-- The destination of a relocation holds Sand after the scan. -/
theorem resolved_of_target {W H : Nat} {grid : Grid} {s t : Int × Int}
    (h : target W H grid s.1 s.2 = some t) : resolved W H grid t.1 t.2 = 2 := by
  obtain ⟨_, h2, h3⟩ := target_near h
  have h0 := (target_spec h).2.2.2
  have hn : target W H grid t.1 t.2 = none := target_none_of_nonpos (by omega)
  obtain ⟨s1, s2⟩ := s
  obtain ⟨t1, t2⟩ := t
  simp only at h h2 h3 h0 hn ⊢
  have e2 : s2 = t2 - 1 := by omega
  subst e2
  unfold resolved
  rw [hn]
  simp only [Option.isSome_none, Bool.false_eq_true, if_false]
  rw [if_pos]
  rcases h3 with h3 | h3 | h3
  · left; rw [h3]; rw [h3] at h; exact h
  · right; left
    have : s1 = t1 + 1 := by omega
    rw [← this]; exact h
  · right; right
    have : s1 = t1 - 1 := by omega
    rw [← this]; exact h

/-- An occupied cell that does not relocate keeps its content. -/
theorem resolved_of_stay {W H : Nat} {grid : Grid} {x y : Int}
    (h0 : grid x y ≠ 0) (hn : target W H grid x y = none) :
    resolved W H grid x y = grid x y := by
  unfold resolved
  rw [hn]
  simp only [Option.isSome_none, Bool.false_eq_true, if_false]
  rw [if_neg]
  rintro (h | h | h) <;> exact h0 (target_spec h).2.2.2

/-- Where a non-empty cell of the scanned buffer got its content from. -/
theorem resolved_pos_cases {W H : Nat} {grid : Grid} {x y m : Int} (hm : 0 < m)
    (hr : resolved W H grid x y = m) :
    (grid x y = m ∧ target W H grid x y = none) ∨
      (m = 2 ∧ ∃ s : Int × Int, target W H grid s.1 s.2 = some (x, y)) := by
  unfold resolved at hr
  by_cases h1 : (target W H grid x y).isSome = true
  · rw [if_pos h1] at hr; omega
  · rw [if_neg h1] at hr
    have hn : target W H grid x y = none := by
      cases h : target W H grid x y with
      | none => rfl
      | some t => rw [h] at h1; simp at h1
    split at hr
    · rename_i hex
      right
      refine ⟨hr.symm, ?_⟩
      rcases hex with h | h | h
      · exact ⟨(x, y - 1), h⟩
      · exact ⟨(x + 1, y - 1), h⟩
      · exact ⟨(x - 1, y - 1), h⟩
    · exact Or.inl ⟨hr, hn⟩

theorem count_resolved_le (W H : Nat) (grid : Grid) (m : Int) (hm : 0 < m) :
    countCells W H (resolved W H grid) m ≤ countCells W H grid m := by
  rw [countCells_eq_card, countCells_eq_card]
  apply Finset.card_le_card_of_surjOn (destOf W H grid)
  intro p hp
  simp only [Finset.coe_filter, List.mem_toFinset, Set.mem_setOf_eq] at hp
  simp only [Set.mem_image, Finset.coe_filter, List.mem_toFinset, Set.mem_setOf_eq]
  rcases resolved_pos_cases hm hp.2 with ⟨h1, h2⟩ | ⟨h1, s, hs⟩
  · exact ⟨p, ⟨hp.1, h1⟩, by simp [destOf, h2]⟩
  · refine ⟨s, ⟨(mem_scanOrder W H s).mpr (target_spec hs).1, ?_⟩, by simp [destOf, hs]⟩
    rw [h1]; exact (target_near hs).1

theorem count_resolved_ge (W H : Nat) (grid : Grid) (m : Int) (hm : 0 < m)
    (hinj : ∀ s₁ s₂ t : Int × Int, target W H grid s₁.1 s₁.2 = some t →
      target W H grid s₂.1 s₂.2 = some t → s₁ = s₂) :
    countCells W H grid m ≤ countCells W H (resolved W H grid) m := by
  rw [countCells_eq_card, countCells_eq_card]
  apply Finset.card_le_card_of_injOn (destOf W H grid)
  · intro s hs
    simp only [Finset.mem_filter, List.mem_toFinset, Finset.coe_filter, Set.mem_setOf_eq] at hs ⊢
    cases ht : target W H grid s.1 s.2 with
    | none =>
      simp only [destOf, ht, Option.getD_none]
      exact ⟨hs.1, by rw [resolved_of_stay (by omega) ht]; exact hs.2⟩
    | some t =>
      simp only [destOf, ht, Option.getD_some]
      refine ⟨(mem_scanOrder W H t).mpr (target_spec ht).2.2.1, ?_⟩
      rw [resolved_of_target ht, ← hs.2]
      exact (target_near ht).1.symm
  · intro s₁ h₁ s₂ h₂ he
    simp only [Finset.coe_filter, List.mem_toFinset, Set.mem_setOf_eq] at h₁ h₂
    cases ht₁ : target W H grid s₁.1 s₁.2 with
    | none =>
      cases ht₂ : target W H grid s₂.1 s₂.2 with
      | none => simpa [destOf, ht₁, ht₂] using he
      | some t₂ =>
        simp only [destOf, ht₁, ht₂, Option.getD_none, Option.getD_some] at he
        have := (target_spec ht₂).2.2.2
        rw [← he] at this
        omega
    | some t₁ =>
      cases ht₂ : target W H grid s₂.1 s₂.2 with
      | none =>
        simp only [destOf, ht₁, ht₂, Option.getD_none, Option.getD_some] at he
        have := (target_spec ht₁).2.2.2
        rw [he] at this
        omega
      | some t₂ =>
        simp only [destOf, ht₁, ht₂, Option.getD_some] at he
        exact hinj s₁ s₂ t₁ ht₁ (by rw [he]; exact ht₂)

/-! ## The clash scenario -/

theorem clashGrid_eq_two (x y : Int) :
    clashGrid x y = 2 ↔ (x = 0 ∧ y = 0) ∨ (x = 2 ∧ y = 0) := by
  unfold clashGrid
  split_ifs <;> omega

theorem tableSafe_clashGrid (W H : Nat) : TableSafe W H clashGrid := by
  intro x y _
  show clashGrid x y < 4
  unfold clashGrid
  split_ifs <;> decide

theorem target_clashGrid_left : target WIN_WIDTH WIN_HEIGHT clashGrid 0 0 = some (1, 1) := by
  decide

theorem target_clashGrid_right : target WIN_WIDTH WIN_HEIGHT clashGrid 2 0 = some (1, 1) := by
  decide

theorem clash_target_iff (x y : Int) :
    (∃ s : Int × Int, target WIN_WIDTH WIN_HEIGHT clashGrid s.1 s.2 = some (x, y)) ↔
      (x = 1 ∧ y = 1) := by
  constructor
  · rintro ⟨⟨s1, s2⟩, hs⟩
    have h2 := (target_near hs).1
    rcases (clashGrid_eq_two s1 s2).mp h2 with ⟨rfl, rfl⟩ | ⟨rfl, rfl⟩
    · rw [target_clashGrid_left] at hs
      obtain ⟨rfl, rfl⟩ := Prod.mk.inj (Option.some.inj hs)
      exact ⟨rfl, rfl⟩
    · rw [target_clashGrid_right] at hs
      obtain ⟨rfl, rfl⟩ := Prod.mk.inj (Option.some.inj hs)
      exact ⟨rfl, rfl⟩
  · rintro ⟨rfl, rfl⟩
    exact ⟨(0, 0), target_clashGrid_left⟩

theorem resolved_clashGrid_eq_two (x y : Int) :
    resolved WIN_WIDTH WIN_HEIGHT clashGrid x y = 2 ↔ (x = 1 ∧ y = 1) := by
  constructor
  · intro h
    rcases resolved_pos_cases (by decide) h with ⟨h1, h2⟩ | ⟨_, hs⟩
    · rcases (clashGrid_eq_two x y).mp h1 with ⟨rfl, rfl⟩ | ⟨rfl, rfl⟩
      · rw [target_clashGrid_left] at h2; cases h2
      · rw [target_clashGrid_right] at h2; cases h2
    · exact (clash_target_iff x y).mp hs
  · rintro ⟨rfl, rfl⟩
    exact resolved_of_target (s := (0, 0)) (t := (1, 1)) target_clashGrid_left

/-- Claim C1, as stated, fails: on the program's 320 × 180 grid holding Sand at
`(0,0)` and `(2,0)` above Wall at `(0,1)` and `(2,1)`, the resolution pass
returns a buffer with one Sand cell where the grid had two. -/
theorem resolve_clashGrid_loses_sand :
    ∃ b, resolve WIN_WIDTH WIN_HEIGHT clashGrid = .ok b ∧
      countCells WIN_WIDTH WIN_HEIGHT clashGrid 2 = 2 ∧
      countCells WIN_WIDTH WIN_HEIGHT b 2 = 1 := by
  refine ⟨_, resolve_spec _ _ _ (tableSafe_clashGrid _ _), ?_, ?_⟩
  · rw [countCells_eq_card]
    have : (scanOrder WIN_WIDTH WIN_HEIGHT).toFinset.filter (fun c => clashGrid c.1 c.2 = 2)
        = {(0, 0), (2, 0)} := by
      ext ⟨x, y⟩
      simp only [Finset.mem_filter, List.mem_toFinset, mem_scanOrder, clashGrid_eq_two,
        Finset.mem_insert, Finset.mem_singleton, Prod.mk.injEq]
      constructor
      · exact fun h => h.2
      · rintro (⟨rfl, rfl⟩ | ⟨rfl, rfl⟩) <;> exact ⟨by decide, by simp⟩
    rw [this]; rfl
  · rw [countCells_eq_card]
    have : (scanOrder WIN_WIDTH WIN_HEIGHT).toFinset.filter
        (fun c => resolved WIN_WIDTH WIN_HEIGHT clashGrid c.1 c.2 = 2) = {(1, 1)} := by
      ext ⟨x, y⟩
      simp only [Finset.mem_filter, List.mem_toFinset, mem_scanOrder, resolved_clashGrid_eq_two,
        Finset.mem_singleton, Prod.mk.injEq]
      constructor
      · exact fun h => h.2
      · rintro ⟨rfl, rfl⟩; exact ⟨by decide, by simp⟩
    rw [this]; rfl

/-- Claim C1, amended: for every grid whose ids the scan can look up, the
resolution pass returns a buffer in which, for every id `m > 0`, the number of
cells holding `m` is at most the number before the pass, and equal to it when no two
cells of the grid relocate to the same cell. -/
theorem resolve_count_le (W H : Nat) (grid : Grid) (hs : TableSafe W H grid) :
    ∃ b, resolve W H grid = .ok b ∧
      (∀ m, 0 < m → countCells W H b m ≤ countCells W H grid m) ∧
      ((∀ s₁ s₂ t : Int × Int, target W H grid s₁.1 s₁.2 = some t →
          target W H grid s₂.1 s₂.2 = some t → s₁ = s₂) →
        ∀ m, 0 < m → countCells W H b m = countCells W H grid m) :=
  ⟨_, resolve_spec W H grid hs, fun m hm => count_resolved_le W H grid m hm,
    fun hinj m hm => le_antisymm (count_resolved_le W H grid m hm)
      (count_resolved_ge W H grid m hm hinj)⟩

theorem resolve_count_le_witness :
    TableSafe 3 2 clashGrid ∧
      ∃ b, resolve 3 2 clashGrid = .ok b ∧
        (∀ m, 0 < m → countCells 3 2 b m ≤ countCells 3 2 clashGrid m) ∧
        ((∀ s₁ s₂ t : Int × Int, target 3 2 clashGrid s₁.1 s₁.2 = some t →
            target 3 2 clashGrid s₂.1 s₂.2 = some t → s₁ = s₂) →
          ∀ m, 0 < m → countCells 3 2 b m = countCells 3 2 clashGrid m) :=
  ⟨tableSafe_clashGrid 3 2, resolve_count_le 3 2 clashGrid (tableSafe_clashGrid 3 2)⟩

/-! ## Shared move targets -/

/-- A diagonal relocation passed its check: the cell beside the source, above
the target, is empty. -/
theorem target_diag_check {W H : Nat} {grid : Grid} {x y : Int} {t : Int × Int}
    (h : target W H grid x y = some t) (hne : t.1 ≠ x) : grid t.1 y = 0 := by
  have h2 := (target_near h).1
  have hb := (target_spec h).1
  rw [target_sand hb h2] at h
  split at h
  · cases h; exact absurd rfl hne
  · split at h
    · rename_i hf
      cases h
      simp only [Bool.and_eq_true, free_iff] at hf
      exact hf.1.2
    · split at h
      · rename_i hf
        cases h
        simp only [Bool.and_eq_true, free_iff] at hf
        exact hf.1.2
      · cases h

/-- What the scan of a relocating cell writes. -/
theorem scanCell_of_target (W H : Nat) (grid b : Grid) (s t : Int × Int)
    (h : target W H grid s.1 s.2 = some t) :
    scanCell W H grid b s.1 s.2 =
      .ok (setCell (setCell b t.1 t.2 (grid s.1 s.2)) s.1 s.2 0) := by
  have h2 := (target_near h).1
  rw [scanCell_eq W H grid b s.1 s.2 (target_spec h).1 (by rw [h2]; decide)]
  simp [stepCell, h]

/-- Claim C2, as stated, fails: on the program's grid holding `clashGrid` the
scan of `(0,0)` and the scan of `(2,0)` both end in a successful `move`, and
both moves write the scratch cell `(1,1)`. -/
theorem scan_clashGrid_double_write :
    ∃ b₁ b₂,
      scanCell WIN_WIDTH WIN_HEIGHT clashGrid (initBuffer clashGrid) 0 0 = .ok b₁ ∧
      move WIN_WIDTH WIN_HEIGHT clashGrid (initBuffer clashGrid) ⟨1, 1⟩ 0 0 = .ok (true, b₁) ∧
      scanCell WIN_WIDTH WIN_HEIGHT clashGrid b₁ 2 0 = .ok b₂ ∧
      move WIN_WIDTH WIN_HEIGHT clashGrid b₁ ⟨-1, 1⟩ 2 0 = .ok (true, b₂) ∧
      ((0 : Int) + 1, (0 : Int) + 1) = ((2 : Int) + -1, (0 : Int) + 1) :=
  ⟨_, _, rfl, rfl, rfl, rfl, rfl⟩

/-- Claim C2, amended: two cells that relocate to the same cell `t` in one pass
are either the same cell or the two Sand cells diagonally above `t`, at
`(t.1 - 1, t.2 - 1)` and `(t.1 + 1, t.2 - 1)`; `t` is empty in the pre-step grid,
and the scan of each source writes its id to `t` and `0` to its own cell. -/
theorem target_shared_by_at_most_two (W H : Nat) (grid : Grid) (s₁ s₂ t : Int × Int)
    (h₁ : target W H grid s₁.1 s₁.2 = some t) (h₂ : target W H grid s₂.1 s₂.2 = some t) :
    grid t.1 t.2 = 0 ∧
      (s₁ = s₂ ∨ (s₁ = (t.1 - 1, t.2 - 1) ∧ s₂ = (t.1 + 1, t.2 - 1)) ∨
        (s₁ = (t.1 + 1, t.2 - 1) ∧ s₂ = (t.1 - 1, t.2 - 1))) ∧
      (∀ b, scanCell W H grid b s₁.1 s₁.2 =
        .ok (setCell (setCell b t.1 t.2 (grid s₁.1 s₁.2)) s₁.1 s₁.2 0)) ∧
      (∀ b, scanCell W H grid b s₂.1 s₂.2 =
        .ok (setCell (setCell b t.1 t.2 (grid s₂.1 s₂.2)) s₂.1 s₂.2 0)) := by
  refine ⟨(target_spec h₁).2.2.2, ?_, fun b => scanCell_of_target W H grid b s₁ t h₁,
    fun b => scanCell_of_target W H grid b s₂ t h₂⟩
  obtain ⟨g₁, y₁, x₁⟩ := target_near h₁
  obtain ⟨g₂, y₂, x₂⟩ := target_near h₂
  have d₁ := @target_diag_check W H grid s₁.1 s₁.2 t h₁
  have d₂ := @target_diag_check W H grid s₂.1 s₂.2 t h₂
  obtain ⟨a₁, b₁⟩ := s₁
  obtain ⟨a₂, b₂⟩ := s₂
  obtain ⟨t₁, t₂⟩ := t
  simp only [Prod.mk.injEq] at *
  have e₁ : b₁ = t₂ - 1 := by omega
  have e₂ : b₂ = t₂ - 1 := by omega
  subst e₁ e₂
  by_cases c₁ : t₁ = a₁
  · by_cases c₂ : t₁ = a₂
    · left; omega
    · have := d₂ c₂
      rw [c₁] at this
      omega
  · by_cases c₂ : t₁ = a₂
    · have := d₁ c₁
      rw [c₂] at this
      omega
    · omega

theorem target_shared_by_at_most_two_witness :
    clashGrid 1 1 = 0 ∧
      (((0 : Int), (0 : Int)) = (2, 0) ∨
        (((0 : Int), (0 : Int)) = (1 - 1, 1 - 1) ∧ ((2 : Int), (0 : Int)) = (1 + 1, 1 - 1)) ∨
        (((0 : Int), (0 : Int)) = (1 + 1, 1 - 1) ∧ ((2 : Int), (0 : Int)) = (1 - 1, 1 - 1))) ∧
      (∀ b, scanCell WIN_WIDTH WIN_HEIGHT clashGrid b 0 0 =
        .ok (setCell (setCell b 1 1 (clashGrid 0 0)) 0 0 0)) ∧
      (∀ b, scanCell WIN_WIDTH WIN_HEIGHT clashGrid b 2 0 =
        .ok (setCell (setCell b 1 1 (clashGrid 2 0)) 2 0 0)) :=
  target_shared_by_at_most_two WIN_WIDTH WIN_HEIGHT clashGrid (0, 0) (2, 0) (1, 1)
    (by decide) (by decide)

/-! ## The brush -/

theorem mem_loopRange (lo hi v : Int) : v ∈ loopRange lo hi ↔ lo ≤ v ∧ v ≤ hi := by
  unfold loopRange
  simp only [List.mem_map, List.mem_range]
  constructor
  · rintro ⟨i, hi', rfl⟩
    omega
  · intro h
    exact ⟨(v - lo).toNat, by omega, by omega⟩

theorem brushCell_eq (W H : Nat) (b : Grid) (mat r : Int) (m : coords) (x y : Int) :
    brushCell W H b mat r m x y =
      .ok (if inBounds W H (m.x + x) (m.y + y) = true ∧ 4 * (x * x + y * y) ≤ r * r
        then setCell b (m.x + x) (m.y + y) mat else b) := by
  unfold brushCell writeCell
  by_cases h1 : inBounds W H (m.x + x) (m.y + y) = true
  · by_cases h2 : 4 * (x * x + y * y) > r * r
    · have : ¬ (4 * (x * x + y * y) ≤ r * r) := by omega
      simp [h1, h2, this, pure, Except.pure]
    · have : 4 * (x * x + y * y) ≤ r * r := by omega
      simp [h1, h2, this]
  · simp [h1, pure, Except.pure]

/-- A loop whose every iteration either writes `mat` to the cells selected by
`P` or leaves the buffer alone. -/
theorem foldl_paint {α : Type} (mat : Int) (P : α → Int → Int → Prop)
    (step : Grid → α → Grid)
    (hstep : ∀ b a i j, (P a i j → step b a i j = mat) ∧ (¬ P a i j → step b a i j = b i j))
    (l : List α) (b : Grid) (i j : Int) :
    ((∃ a ∈ l, P a i j) → l.foldl step b i j = mat) ∧
      ((¬ ∃ a ∈ l, P a i j) → l.foldl step b i j = b i j) := by
  induction l generalizing b with
  | nil => simp
  | cons a l ih =>
    rw [List.foldl_cons]
    constructor
    · rintro ⟨a', ha', hP⟩
      by_cases hl : ∃ a ∈ l, P a i j
      · exact (ih _).1 hl
      · rw [(ih _).2 hl]
        rcases List.mem_cons.mp ha' with rfl | h
        · exact (hstep b _ i j).1 hP
        · exact absurd ⟨a', h, hP⟩ hl
    · intro hno
      have hl : ¬ ∃ a ∈ l, P a i j := fun ⟨a', h, hP⟩ => hno ⟨a', List.mem_cons_of_mem _ h, hP⟩
      rw [(ih _).2 hl]
      exact (hstep b a i j).2 (fun hP => hno ⟨a, List.mem_cons_self _ _, hP⟩)

theorem brush_eq (W H : Nat) (b : Grid) (mat r : Int) (m : coords)
    (hm : inBounds W H m.x m.y = true) :
    brush W H b mat r m = .ok (stamped W H b mat r m) := by
  unfold brush
  simp only [Int.tmod_one, sub_zero]
  set half := Int.tdiv r 2 with hhalf
  let paint : Grid → Int → Int → Grid := fun b x y =>
    if inBounds W H (m.x + x) (m.y + y) = true ∧ 4 * (x * x + y * y) ≤ r * r
      then setCell b (m.x + x) (m.y + y) mat else b
  have hrow : ∀ x b, (loopRange (-half) half).foldlM
      (fun b y => brushCell W H b mat r m x y) b =
        .ok ((loopRange (-half) half).foldl (fun b y => paint b x y) b) := by
    intro x b
    exact foldlM_ok _ _ _ (fun y _ b => brushCell_eq W H b mat r m x y) b
  rw [foldlM_ok _ (fun b x => (loopRange (-half) half).foldl (fun b y => paint b x y) b) _
    (fun x _ b => hrow x b)]
  simp only [bind, Except.bind, writeCell, hm, if_true]
  congr 1
  funext i j
  have hpaint : ∀ x b y i j,
      ((inBounds W H i j = true ∧ 4 * (x * x + y * y) ≤ r * r ∧ i = m.x + x ∧ j = m.y + y) →
        paint b x y i j = mat) ∧
      (¬ (inBounds W H i j = true ∧ 4 * (x * x + y * y) ≤ r * r ∧ i = m.x + x ∧ j = m.y + y) →
        paint b x y i j = b i j) := by
    intro x b y i j
    simp only [paint]
    constructor
    · rintro ⟨h1, h2, rfl, rfl⟩
      simp [h1, h2, setCell]
    · intro hn
      by_cases hc : inBounds W H (m.x + x) (m.y + y) = true ∧ 4 * (x * x + y * y) ≤ r * r
      · rw [if_pos hc]
        have : ¬ (i = m.x + x ∧ j = m.y + y) := by
          rintro ⟨rfl, rfl⟩
          exact hn ⟨hc.1, hc.2, rfl, rfl⟩
        simp [setCell, this]
      · rw [if_neg hc]
  have hinner := fun x b => foldl_paint mat
    (fun y i j => inBounds W H i j = true ∧ 4 * (x * x + y * y) ≤ r * r ∧ i = m.x + x ∧ j = m.y + y)
    (fun b y => paint b x y) (fun b y i j => hpaint x b y i j) (loopRange (-half) half) b
  have houter := foldl_paint mat
    (fun x i j => ∃ y ∈ loopRange (-half) half,
      inBounds W H i j = true ∧ 4 * (x * x + y * y) ≤ r * r ∧ i = m.x + x ∧ j = m.y + y)
    (fun b x => (loopRange (-half) half).foldl (fun b y => paint b x y) b)
    (fun b x i j => hinner x b i j) (loopRange (-half) half) b i j
  unfold stamped setCell
  by_cases hc : i = m.x ∧ j = m.y
  · simp [hc]
  · simp only [hc, if_false, false_or]
    by_cases hd : inBounds W H i j = true ∧ -half ≤ i - m.x ∧ i - m.x ≤ half ∧
        -half ≤ j - m.y ∧ j - m.y ≤ half ∧
        4 * ((i - m.x) * (i - m.x) + (j - m.y) * (j - m.y)) ≤ r * r
    · rw [if_pos hd]
      apply houter.1
      refine ⟨i - m.x, (mem_loopRange _ _ _).mpr ⟨hd.2.1, hd.2.2.1⟩, j - m.y,
        (mem_loopRange _ _ _).mpr ⟨hd.2.2.2.1, hd.2.2.2.2.1⟩, hd.1, hd.2.2.2.2.2, by ring, by ring⟩
    · rw [if_neg hd]
      apply houter.2
      rintro ⟨x, hx, y, hy, h1, h2, rfl, rfl⟩
      rw [mem_loopRange] at hx hy
      apply hd
      refine ⟨h1, by omega, by omega, by omega, by omega, ?_⟩
      have e1 : m.x + x - m.x = x := by ring
      have e2 : m.y + y - m.y = y := by ring
      rw [e1, e2]; exact h2

/-! ## The whole frame -/

theorem materialAt_fault {id : Int} {e : Fault} (h : materialAt id = .error e) :
    e = .tableIndex := by
  unfold materialAt at h
  split at h
  · split at h
    · cases h
    · cases h; rfl
  · cases h; rfl

theorem scanCell_fault (W H : Nat) (grid b : Grid) (x y : Int) (e : Fault)
    (hxy : inBounds W H x y = true) (h : scanCell W H grid b x y = .error e) :
    e = .tableIndex := by
  unfold scanCell at h
  simp only [readCell, hxy, if_true, bind, Except.bind] at h
  by_cases h0 : grid x y ≤ 0
  · simp [h0, pure, Except.pure] at h
  · simp only [h0, if_false] at h
    cases hm : materialAt (grid x y) with
    | error e' =>
      rw [hm] at h
      cases h
      exact materialAt_fault hm
    | ok mat =>
      rw [hm] at h
      simp only [applyRules_eq W H grid mat.rules b x y hxy] at h
      cases h

theorem foldlM_fault {α β : Type} (f : β → α → Except Fault β) (l : List α)
    (h : ∀ a ∈ l, ∀ b e, f b a = .error e → e = .tableIndex) (b : β) (e : Fault)
    (he : l.foldlM f b = .error e) : e = .tableIndex := by
  induction l generalizing b with
  | nil => cases he
  | cons a l ih =>
    rw [List.foldlM_cons] at he
    cases hf : f b a with
    | error e' =>
      rw [hf] at he
      cases he
      exact h a (List.mem_cons_self _ _) b _ hf
    | ok b' =>
      rw [hf] at he
      exact ih (fun a ha => h a (List.mem_cons_of_mem _ ha)) b' he

theorem resolve_fault (W H : Nat) (grid : Grid) (e : Fault)
    (h : resolve W H grid = .error e) : e = .tableIndex ∧ ¬ TableSafe W H grid := by
  constructor
  · unfold resolve at h
    refine foldlM_fault _ _ ?_ _ e h
    intro y hy b e he
    unfold scanRow at he
    refine foldlM_fault _ _ ?_ _ e he
    intro x hx b e he
    have hb : inBounds W H (x : Int) (y : Int) = true := by
      rw [inBounds_iff]
      simp only [List.mem_range] at hx hy
      omega
    exact scanCell_fault W H grid b x y e hb he
  · intro hs
    rw [resolve_spec W H grid hs] at h
    cases h

theorem render_of_resolve (W H : Nat) (s : Sim) (inp : Input) (b : Grid)
    (hr : resolve W H s.grid = .ok b) :
    render W H s inp = .ok
      ⟨if inp.leftMouse && inBounds W H (pointerCell inp).x (pointerCell inp).y
        then stamped W H b (selectMaterial inp.key s.material)
          (SDL_clamp (s.brushSize + inp.scroll.y) 1 64) (pointerCell inp)
        else b,
       selectMaterial inp.key s.material, SDL_clamp (s.brushSize + inp.scroll.y) 1 64⟩ := by
  unfold render
  rw [hr]
  simp only [bind, Except.bind, commitBuffer]
  by_cases hc : (inp.leftMouse && inBounds W H (pointerCell inp).x (pointerCell inp).y) = true
  · have hm : inBounds W H (pointerCell inp).x (pointerCell inp).y = true := by
      simp only [Bool.and_eq_true] at hc; exact hc.2
    have hc' : (inp.leftMouse && inBounds W H (Int.tdiv inp.mouse.x PX_SIZE)
        (Int.tdiv inp.mouse.y PX_SIZE)) = true := hc
    rw [if_pos hc, if_pos hc']
    have := brush_eq W H b (selectMaterial inp.key s.material)
      (SDL_clamp (s.brushSize + inp.scroll.y) 1 64) (pointerCell inp) hm
    unfold pointerCell at this
    rw [this]
    rfl
  · have hc' : ¬ (inp.leftMouse && inBounds W H (Int.tdiv inp.mouse.x PX_SIZE)
        (Int.tdiv inp.mouse.y PX_SIZE)) = true := hc
    rw [if_neg hc, if_neg hc']
    rfl

theorem render_eq (W H : Nat) (s : Sim) (inp : Input) (hs : TableSafe W H s.grid) :
    render W H s inp = .ok
      ⟨if inp.leftMouse && inBounds W H (pointerCell inp).x (pointerCell inp).y
        then stamped W H (resolved W H s.grid) (selectMaterial inp.key s.material)
          (SDL_clamp (s.brushSize + inp.scroll.y) 1 64) (pointerCell inp)
        else resolved W H s.grid,
       selectMaterial inp.key s.material, SDL_clamp (s.brushSize + inp.scroll.y) 1 64⟩ :=
  render_of_resolve W H s inp _ (resolve_spec W H s.grid hs)

/-- Claim C3: in one step no indexed access of `grid` or `bufferGrid` leaves the
array.  For every grid size, grid contents, selected material, brush size,
keys, button state, scroll and pointer position, `render` either completes, or
stops at the table read `materials[id]` of a cell whose id is not below
`materialsLength`; it never stops at a grid index.  `canMove` completes for
every rule offset and every cell. -/
theorem render_index_safe (W H : Nat) (s : Sim) (inp : Input) :
    ((∃ s', render W H s inp = .ok s') ∨
      (render W H s inp = .error .tableIndex ∧ ¬ TableSafe W H s.grid)) ∧
    render W H s inp ≠ .error .gridIndex ∧
    (∀ (rule : coords) (x y : Int), ∃ r, canMove W H s.grid rule x y = .ok r) := by
  have key : (∃ s', render W H s inp = .ok s') ∨
      (render W H s inp = .error .tableIndex ∧ ¬ TableSafe W H s.grid) := by
    cases hr : resolve W H s.grid with
    | ok b => exact Or.inl ⟨_, render_of_resolve W H s inp b hr⟩
    | error e =>
      obtain ⟨he, hs⟩ := resolve_fault W H s.grid e hr
      subst he
      refine Or.inr ⟨?_, hs⟩
      unfold render
      rw [hr]
      rfl
  refine ⟨key, ?_, fun rule x y => ⟨_, canMove_eq W H s.grid rule x y⟩⟩
  rcases key with ⟨s', h⟩ | ⟨h, _⟩
  · rw [h]; intro h'; cases h'
  · rw [h]; intro h'; cases h'

/-! ## First match -/

theorem canMove_true_iff (W H : Nat) (grid : Grid) (rule : coords) (x y : Int) :
    canMove W H grid rule x y = .ok true ↔ holds (canMove W H grid rule x y) = true := by
  rw [canMove_eq]
  cases free W H grid (x + rule.x) (y + rule.y) <;> simp [holds]

theorem succeeds_iff_canMove (W H : Nat) (grid : Grid) (x y : Int) (r : coords × coords) :
    succeeds W H grid x y r = true ↔
      (canMove W H grid r.1 x y = .ok true ∧ canMove W H grid r.2 x y = .ok true) := by
  rw [canMove_true_iff, canMove_true_iff]
  simp [succeeds]

theorem find_first {α : Type} (p : α → Bool) (l : List α) (j : Nat) (r : α)
    (hj : l[j]? = some r) (hp : p r = true)
    (hlt : ∀ (i : Nat) (r' : α), i < j → l[i]? = some r' → p r' = false) :
    l.find? p = some r := by
  induction l generalizing j with
  | nil => simp at hj
  | cons a l ih =>
    cases j with
    | zero =>
      simp only [List.getElem?_cons_zero, Option.some.injEq] at hj
      subst hj
      simp [List.find?_cons, hp]
    | succ j =>
      have ha : p a = false := hlt 0 a (Nat.succ_pos j) (by simp)
      simp only [List.getElem?_cons_succ] at hj
      rw [List.find?_cons, ha]
      exact ih j hj (fun i r' hi hr' => hlt (i + 1) r' (by omega) (by simpa using hr'))

/-- Claim C4: scanning a cell applies exactly the relocation of the first rule,
in declaration order, for which `canMove` holds on the pre-step grid both for
its check offset and for its move offset; the resulting buffer differs from
the incoming one only by that relocation, so later rules have no effect and
the cell's content ends at that rule's move offset.  When no rule qualifies the
buffer is returned unchanged. -/
theorem applyRules_first_match (W H : Nat) (grid b : Grid) (rules : List (coords × coords))
    (x y : Int) (hxy : inBounds W H x y = true) :
    (∀ (j : Nat) (r : coords × coords), rules[j]? = some r →
      canMove W H grid r.1 x y = .ok true → canMove W H grid r.2 x y = .ok true →
      (∀ (i : Nat) (r' : coords × coords), i < j → rules[i]? = some r' →
        ¬ (canMove W H grid r'.1 x y = .ok true ∧ canMove W H grid r'.2 x y = .ok true)) →
      ∃ b', applyRules W H grid rules b x y = .ok b' ∧
        b' = setCell (setCell b (x + r.2.x) (y + r.2.y) (grid x y)) x y
          (grid (x + r.2.x) (y + r.2.y)) ∧
        b' (x + r.2.x) (y + r.2.y) = grid x y) ∧
    ((∀ r ∈ rules,
        ¬ (canMove W H grid r.1 x y = .ok true ∧ canMove W H grid r.2 x y = .ok true)) →
      applyRules W H grid rules b x y = .ok b) := by
  constructor
  · intro j r hj h1 h2 hlt
    have hf : rules.find? (succeeds W H grid x y) = some r := by
      apply find_first _ _ j r hj ((succeeds_iff_canMove W H grid x y r).mpr ⟨h1, h2⟩)
      intro i r' hi hr'
      have := hlt i r' hi hr'
      rw [← succeeds_iff_canMove] at this
      simpa using this
    refine ⟨_, by rw [applyRules_eq W H grid rules b x y hxy, hf]; rfl, rfl, ?_⟩
    simp only [setCell]
    by_cases hc : x + r.2.x = x ∧ y + r.2.y = y
    · rw [if_pos hc, hc.1, hc.2]
    · rw [if_neg hc]; simp
  · intro hno
    have hf : rules.find? (succeeds W H grid x y) = none := by
      rw [List.find?_eq_none]
      intro r hr
      have := hno r hr
      rw [← succeeds_iff_canMove] at this
      exact this
    rw [applyRules_eq W H grid rules b x y hxy, hf]

theorem applyRules_first_match_witness :
    inBounds 10 10 5 5 = true ∧
      ∃ b', applyRules 10 10 slideGrid (rulesOf 2) slideGrid 5 5 = .ok b' ∧
        b' = setCell (setCell slideGrid (5 + 1) (5 + 1) (slideGrid 5 5)) 5 5
          (slideGrid (5 + 1) (5 + 1)) ∧
        b' (5 + 1) (5 + 1) = slideGrid 5 5 :=
  ⟨by decide,
    (applyRules_first_match 10 10 slideGrid slideGrid (rulesOf 2) 5 5 (by decide)).1 2
      (⟨1, 0⟩, ⟨1, 1⟩) rfl rfl rfl (by
        intro i r' hi hr'
        have : i = 0 ∨ i = 1 := by omega
        rcases this with rfl | rfl
        · have : r' = (⟨0, 1⟩, ⟨0, 1⟩) := (Option.some.inj hr').symm
          subst this
          intro h
          have h' : (Except.ok false : Except Fault Bool) = .ok true := h.1
          cases h'
        · have : r' = (⟨-1, 0⟩, ⟨-1, 1⟩) := (Option.some.inj hr').symm
          subst this
          intro h
          have h' : (Except.ok false : Except Fault Bool) = .ok true := h.1
          cases h')⟩

/-! ## Valid ids -/

theorem selectMaterial_cases (key : String → Bool) (material : Int) :
    selectMaterial key material = material ∨
      (0 ≤ selectMaterial key material ∧ selectMaterial key material < materialsLength) := by
  have hn : (SDL_min matKeysLength materialsLength).toNat = 4 := by decide
  unfold selectMaterial
  rw [hn]
  show _ ∨ (_ ∧ _ < (4 : Int))
  simp only [List.range_succ, List.range_zero, List.nil_append, List.cons_append,
    List.foldl_cons, List.foldl_nil]
  split_ifs <;> simp

theorem tableSafe_of_validIds {W H : Nat} {grid : Grid} (h : ValidIds W H grid) :
    TableSafe W H grid := fun x y hxy => (h x y hxy).2

theorem resolved_values (W H : Nat) (grid : Grid) (i j : Int) :
    resolved W H grid i j = 0 ∨ resolved W H grid i j = 2 ∨
      resolved W H grid i j = grid i j := by
  unfold resolved
  split_ifs <;> simp

theorem stamped_values (W H : Nat) (b : Grid) (mat r : Int) (m : coords) (i j : Int) :
    stamped W H b mat r m i j = mat ∨ stamped W H b mat r m i j = b i j := by
  unfold stamped
  split_ifs <;> simp

/-- Claim C5: if every grid cell holds an id in `[0, materialsLength)` and the
selected material is in `[0, materialsLength)`, then for every key state, mouse
button state, scroll value and pointer position the frame completes, and
afterwards every grid cell and the selected material are again in
`[0, materialsLength)`. -/
theorem render_preserves_valid_ids (W H : Nat) (s : Sim) (inp : Input)
    (hg : ValidIds W H s.grid) (hm : 0 ≤ s.material ∧ s.material < materialsLength) :
    ∃ s', render W H s inp = .ok s' ∧ ValidIds W H s'.grid ∧
      0 ≤ s'.material ∧ s'.material < materialsLength := by
  refine ⟨_, render_eq W H s inp (tableSafe_of_validIds hg), ?_, ?_⟩
  · have hsel : 0 ≤ selectMaterial inp.key s.material ∧
        selectMaterial inp.key s.material < materialsLength := by
      rcases selectMaterial_cases inp.key s.material with h | h
      · rw [h]; exact hm
      · exact h
    have hres : ∀ x y, inBounds W H x y = true →
        0 ≤ resolved W H s.grid x y ∧ resolved W H s.grid x y < materialsLength := by
      intro x y hxy
      rcases resolved_values W H s.grid x y with h | h | h
      · rw [h]; decide
      · rw [h]; decide
      · rw [h]; exact hg x y hxy
    intro x y hxy
    simp only
    split_ifs
    · rcases stamped_values W H (resolved W H s.grid) (selectMaterial inp.key s.material)
        (SDL_clamp (s.brushSize + inp.scroll.y) 1 64) (pointerCell inp) x y with h | h
      · rw [h]; exact hsel
      · rw [h]; exact hres x y hxy
    · exact hres x y hxy
  · rcases selectMaterial_cases inp.key s.material with h | h
    · simp only [h]; exact hm
    · exact h

theorem render_preserves_valid_ids_witness :
    ValidIds 10 10 slideGrid ∧ (0 ≤ (1 : Int) ∧ (1 : Int) < materialsLength) ∧
      ∃ s', render 10 10 ⟨slideGrid, 1, 16⟩ ⟨fun k => k == "2", true, ⟨0, 3⟩, ⟨13, 14⟩⟩ = .ok s' ∧
        ValidIds 10 10 s'.grid ∧ 0 ≤ s'.material ∧ s'.material < materialsLength :=
  have hv : ValidIds 10 10 slideGrid := by
    intro x y _
    show 0 ≤ slideGrid x y ∧ slideGrid x y < 4
    unfold slideGrid
    split_ifs <;> decide
  ⟨hv, by decide,
    render_preserves_valid_ids 10 10 ⟨slideGrid, 1, 16⟩
      ⟨fun k => k == "2", true, ⟨0, 3⟩, ⟨13, 14⟩⟩ hv (by decide)⟩

/-! ## Grids that agree on the array -/

theorem free_congr {W H : Nat} {g₁ g₂ : Grid} (h : SameCells W H g₁ g₂) (x y : Int) :
    free W H g₁ x y = free W H g₂ x y := by
  unfold free
  by_cases hb : inBounds W H x y = true
  · rw [h x y hb]
  · simp [hb]

theorem target_congr {W H : Nat} {g₁ g₂ : Grid} (h : SameCells W H g₁ g₂) (x y : Int) :
    target W H g₁ x y = target W H g₂ x y := by
  unfold target
  by_cases hb : inBounds W H x y = true
  · rw [h x y hb]
    have : succeeds W H g₁ x y = succeeds W H g₂ x y := by
      funext r
      simp only [succeeds, holds_canMove, free_congr h]
    rw [this]
  · simp [hb]

theorem resolved_congr {W H : Nat} {g₁ g₂ : Grid} (h : SameCells W H g₁ g₂) :
    SameCells W H (resolved W H g₁) (resolved W H g₂) := by
  intro i j hij
  unfold resolved
  simp only [target_congr h, h i j hij]

theorem sameCells_refl (W H : Nat) (g : Grid) : SameCells W H g g := fun _ _ _ => rfl

theorem sameCells_trans {W H : Nat} {a b c : Grid} (h₁ : SameCells W H a b)
    (h₂ : SameCells W H b c) : SameCells W H a c :=
  fun x y hxy => (h₁ x y hxy).trans (h₂ x y hxy)

theorem tableSafe_congr {W H : Nat} {g₁ g₂ : Grid} (h : SameCells W H g₁ g₂)
    (hs : TableSafe W H g₂) : TableSafe W H g₁ :=
  fun x y hxy => by rw [h x y hxy]; exact hs x y hxy

/-! ## A single falling particle -/

theorem tableSafe_sandAt (W H : Nat) (x y : Int) : TableSafe W H (sandAt x y) := by
  intro i j _
  show sandAt x y i j < 4
  unfold sandAt
  split_ifs <;> decide

theorem target_sandAt {W H : Nat} {x y : Int} (hb : inBounds W H x y = true) (a b : Int) :
    target W H (sandAt x y) a b =
      if a = x ∧ b = y ∧ y + 1 < H then some (x, y + 1) else none := by
  by_cases hab : a = x ∧ b = y
  · obtain ⟨rfl, rfl⟩ := hab
    have h2 : sandAt a b a b = 2 := by simp [sandAt]
    rw [target_sand hb h2]
    rw [inBounds_iff] at hb
    by_cases hy : b + 1 < H
    · have : free W H (sandAt a b) a (b + 1) = true := by
        rw [free_iff, inBounds_iff]
        refine ⟨by omega, ?_⟩
        simp [sandAt]
      simp [this, hy]
    · have f1 : free W H (sandAt a b) a (b + 1) = false := by
        simp only [free, inBounds]
        have : ¬ (b + 1 < (H : Int)) := hy
        simp [this]
      have f2 : free W H (sandAt a b) (a - 1) (b + 1) = false := by
        simp only [free, inBounds]
        have : ¬ (b + 1 < (H : Int)) := hy
        simp [this]
      have f3 : free W H (sandAt a b) (a + 1) (b + 1) = false := by
        simp only [free, inBounds]
        have : ¬ (b + 1 < (H : Int)) := hy
        simp [this]
      simp [f1, f2, f3, hy]
  · have h0 : sandAt x y a b ≠ 2 := by
      simp only [sandAt, if_neg hab]; decide
    rw [target_eq_none_of_ne h0, if_neg]
    exact fun h => hab ⟨h.1, h.2.1⟩

/-- One resolution pass moves a lone particle one row down, or leaves it on
the bottom row. -/
theorem resolved_sandAt {W H : Nat} {x y : Int} (hb : inBounds W H x y = true) :
    resolved W H (sandAt x y) = sandAt x (if y + 1 < H then y + 1 else y) := by
  funext i j
  unfold resolved
  simp only [target_sandAt hb]
  by_cases hy : y + 1 < (H : Int)
  · simp only [hy, and_true, if_true]
    unfold sandAt
    by_cases h1 : i = x ∧ j = y
    · obtain ⟨rfl, rfl⟩ := h1
      simp
    · by_cases h2 : i = x ∧ j = y + 1
      · obtain ⟨rfl, rfl⟩ := h2
        simp
      · have e1 : ¬ (i = x ∧ j - 1 = y) := fun h => h2 ⟨h.1, by omega⟩
        simp only [h1, h2, e1, if_false, Option.isSome_none, Bool.false_eq_true,
          Option.some.injEq, Prod.mk.injEq]
        rw [if_neg]
        rintro (h | h | h)
        · cases h
        · split at h
          · simp only [Option.some.injEq, Prod.mk.injEq] at h; omega
          · cases h
        · split at h
          · simp only [Option.some.injEq, Prod.mk.injEq] at h; omega
          · cases h
  · simp only [hy, and_false, if_false, Option.isSome_none, Bool.false_eq_true, or_self]
    rfl

theorem render_brush_off (W H : Nat) (s : Sim) (inp : Input) (hs : TableSafe W H s.grid)
    (hl : inp.leftMouse = false) :
    render W H s inp = .ok ⟨resolved W H s.grid, selectMaterial inp.key s.material,
      SDL_clamp (s.brushSize + inp.scroll.y) 1 64⟩ := by
  rw [render_eq W H s inp hs, hl]
  rfl

theorem frames_cons (W H : Nat) (s : Sim) (inp : Input) (rest : List Input) :
    frames W H s (inp :: rest) = (render W H s inp >>= fun s' => frames W H s' rest) := by
  unfold frames
  rw [List.foldlM_cons]

theorem sand_falls_from (W H : Nat) (x y : Int) (hb : inBounds W H x y = true)
    (inputs : List Input) (hoff : ∀ inp ∈ inputs, inp.leftMouse = false)
    (s : Sim) (hg : SameCells W H s.grid (sandAt x y)) :
    ∃ s', frames W H s inputs = .ok s' ∧
      SameCells W H s'.grid (sandAt x (min (y + inputs.length) ((H : Int) - 1))) := by
  induction inputs generalizing s y with
  | nil =>
    refine ⟨s, rfl, ?_⟩
    rw [inBounds_iff] at hb
    have : min (y + (([] : List Input).length : Int)) ((H : Int) - 1) = y := by
      simp only [List.length_nil, Nat.cast_zero, add_zero]
      omega
    rw [this]
    exact hg
  | cons inp rest ih =>
    have hs : TableSafe W H s.grid := tableSafe_congr hg (tableSafe_sandAt W H x y)
    have hstep := render_brush_off W H s inp hs (hoff inp (List.mem_cons_self _ _))
    have hg' : SameCells W H (resolved W H s.grid)
        (sandAt x (if y + 1 < (H : Int) then y + 1 else y)) := by
      have := resolved_congr hg
      rw [resolved_sandAt hb] at this
      exact this
    have hb' : inBounds W H x (if y + 1 < (H : Int) then y + 1 else y) = true := by
      rw [inBounds_iff] at hb ⊢
      split_ifs <;> omega
    obtain ⟨s', hs', hres⟩ := ih (if y + 1 < (H : Int) then y + 1 else y) hb'
      (fun i hi => hoff i (List.mem_cons_of_mem _ hi))
      ⟨resolved W H s.grid, selectMaterial inp.key s.material,
        SDL_clamp (s.brushSize + inp.scroll.y) 1 64⟩ hg'
    refine ⟨s', ?_, ?_⟩
    · rw [frames_cons, hstep]
      exact hs'
    · have : min ((if y + 1 < (H : Int) then y + 1 else y) + (rest.length : Int)) ((H : Int) - 1)
          = min (y + ((inp :: rest).length : Int)) ((H : Int) - 1) := by
        rw [inBounds_iff] at hb
        simp only [List.length_cons, Nat.cast_add, Nat.cast_one]
        split_ifs <;> omega
      rw [← this]
      exact hres

/-- Claim C6: on a `W × H` grid that is empty except for one Sand particle at
`(x, 0)`, after `k` frames with the left button up the grid is empty except
for Sand at `(x, min k (H - 1))`: the particle is in row `k` while `k ≤ H - 1`
and stays in row `H - 1` from then on. -/
theorem sand_falls_to_floor (W H : Nat) (x : Int) (hx : 0 ≤ x ∧ x < (W : Int)) (hH : 0 < H)
    (s : Sim) (hg : SameCells W H s.grid (sandAt x 0))
    (inputs : List Input) (hoff : ∀ inp ∈ inputs, inp.leftMouse = false) :
    ∃ s', frames W H s inputs = .ok s' ∧
      SameCells W H s'.grid (sandAt x (min (inputs.length : Int) ((H : Int) - 1))) := by
  have hb : inBounds W H x 0 = true := by
    rw [inBounds_iff]; omega
  have := sand_falls_from W H x 0 hb inputs hoff s hg
  rw [zero_add] at this
  exact this

theorem sand_falls_to_floor_witness :
    (∃ s', frames 10 10 ⟨sandAt 5 0, 1, 16⟩ (List.replicate 1 idle) = .ok s' ∧
      SameCells 10 10 s'.grid (sandAt 5 1)) ∧
    (∃ s', frames 10 10 ⟨sandAt 5 0, 1, 16⟩ (List.replicate 9 idle) = .ok s' ∧
      SameCells 10 10 s'.grid (sandAt 5 9)) ∧
    (∃ s', frames 10 10 ⟨sandAt 5 0, 1, 16⟩ (List.replicate 12 idle) = .ok s' ∧
      SameCells 10 10 s'.grid (sandAt 5 9)) :=
  have hoff : ∀ n, ∀ inp ∈ List.replicate n idle, inp.leftMouse = false := by
    intro n inp h
    rw [List.eq_of_mem_replicate h]
    rfl
  ⟨sand_falls_to_floor 10 10 5 (by decide) (by decide) ⟨sandAt 5 0, 1, 16⟩
      (sameCells_refl 10 10 _) (List.replicate 1 idle) (hoff 1),
    sand_falls_to_floor 10 10 5 (by decide) (by decide) ⟨sandAt 5 0, 1, 16⟩
      (sameCells_refl 10 10 _) (List.replicate 9 idle) (hoff 9),
    sand_falls_to_floor 10 10 5 (by decide) (by decide) ⟨sandAt 5 0, 1, 16⟩
      (sameCells_refl 10 10 _) (List.replicate 12 idle) (hoff 12)⟩

/-! ## The diagonal slide -/

theorem tableSafe_slideGrid (W H : Nat) : TableSafe W H slideGrid := by
  intro x y _
  show slideGrid x y < 4
  unfold slideGrid
  split_ifs <;> decide

theorem target_slideGrid_right {W H : Nat} (hW : 7 ≤ W) (hH : 7 ≤ H) :
    target W H slideGrid 5 5 = some (6, 6) := by
  have hb : inBounds W H 5 5 = true := by rw [inBounds_iff]; omega
  rw [target_sand hb (by decide)]
  have f1 : free W H slideGrid 5 (5 + 1) = false := by
    simp [free, slideGrid]
  have f2 : free W H slideGrid (5 - 1) 5 = false := by
    simp [free, slideGrid]
  have f3 : free W H slideGrid (5 + 1) 5 = true := by
    rw [free_iff, inBounds_iff]
    exact ⟨by omega, by decide⟩
  have f4 : free W H slideGrid (5 + 1) (5 + 1) = true := by
    rw [free_iff, inBounds_iff]
    exact ⟨by omega, by decide⟩
  rw [f1, f2, f3, f4]
  rfl

theorem target_slideGrid_left {W H : Nat} (hW : 7 ≤ W) (hH : 7 ≤ H) :
    target W H slideGrid 4 5 = some (4, 6) := by
  have hb : inBounds W H 4 5 = true := by rw [inBounds_iff]; omega
  rw [target_sand hb (by decide)]
  have f1 : free W H slideGrid 4 (5 + 1) = true := by
    rw [free_iff, inBounds_iff]
    exact ⟨by omega, by decide⟩
  rw [f1]
  rfl

/-- Claim C7: on a grid that is empty except for Sand at `(4,5)` and `(5,5)` and
Wall at `(5,6)`, after one frame with the left button up the cell `(5,5)` is
empty, the first rule of the particle at `(5,5)` that succeeds is the diagonal
rule with move target `(6,6)` and that cell holds Sand, and `(5,6)` still holds
Wall.  (The particle at `(4,5)` fell straight to `(4,6)`.) -/
theorem slide_scenario (W H : Nat) (hW : 7 ≤ W) (hH : 7 ≤ H) (s : Sim)
    (hg : SameCells W H s.grid slideGrid) (inp : Input) (hoff : inp.leftMouse = false) :
    ∃ s', render W H s inp = .ok s' ∧
      s'.grid 5 5 = 0 ∧ target W H s.grid 5 5 = some (6, 6) ∧ s'.grid 6 6 = 2 ∧
      s'.grid 5 6 = 1 ∧ s'.grid 4 5 = 0 ∧ s'.grid 4 6 = 2 := by
  have hs : TableSafe W H s.grid := tableSafe_congr hg (tableSafe_slideGrid W H)
  have hr := resolved_congr hg
  have hin : ∀ x y : Int, 0 ≤ x → x < 7 → 0 ≤ y → y < 7 → inBounds W H x y = true := by
    intro x y h1 h2 h3 h4
    rw [inBounds_iff]; omega
  have tR := @target_slideGrid_right W H hW hH
  have tL := @target_slideGrid_left W H hW hH
  refine ⟨_, render_brush_off W H s inp hs hoff, ?_, ?_, ?_, ?_, ?_, ?_⟩
  · show resolved W H s.grid 5 5 = 0
    rw [hr 5 5 (hin 5 5 (by decide) (by decide) (by decide) (by decide))]
    simp [resolved, tR]
  · rw [target_congr hg]; exact tR
  · show resolved W H s.grid 6 6 = 2
    rw [hr 6 6 (hin 6 6 (by decide) (by decide) (by decide) (by decide))]
    exact resolved_of_target (s := (5, 5)) (t := (6, 6)) tR
  · show resolved W H s.grid 5 6 = 1
    rw [hr 5 6 (hin 5 6 (by decide) (by decide) (by decide) (by decide))]
    exact resolved_of_stay (x := 5) (y := 6) (by decide) (target_eq_none_of_ne (by decide))
  · show resolved W H s.grid 4 5 = 0
    rw [hr 4 5 (hin 4 5 (by decide) (by decide) (by decide) (by decide))]
    simp [resolved, tL]
  · show resolved W H s.grid 4 6 = 2
    rw [hr 4 6 (hin 4 6 (by decide) (by decide) (by decide) (by decide))]
    exact resolved_of_target (s := (4, 5)) (t := (4, 6)) tL

theorem slide_scenario_witness :
    (7 ≤ 10) ∧ SameCells 10 10 slideGrid slideGrid ∧ idle.leftMouse = false ∧
      ∃ s', render 10 10 ⟨slideGrid, 1, 16⟩ idle = .ok s' ∧
        s'.grid 5 5 = 0 ∧ target 10 10 slideGrid 5 5 = some (6, 6) ∧ s'.grid 6 6 = 2 ∧
        s'.grid 5 6 = 1 ∧ s'.grid 4 5 = 0 ∧ s'.grid 4 6 = 2 :=
  ⟨by decide, sameCells_refl 10 10 slideGrid, rfl,
    slide_scenario 10 10 (by decide) (by decide) ⟨slideGrid, 1, 16⟩
      (sameCells_refl 10 10 slideGrid) idle rfl⟩

/-! ## The brush stamp -/

theorem render_brush_on (W H : Nat) (s : Sim) (inp : Input) (b : Grid)
    (hr : resolve W H s.grid = .ok b) (hl : inp.leftMouse = true)
    (hm : inBounds W H (pointerCell inp).x (pointerCell inp).y = true) :
    render W H s inp = .ok
      ⟨stamped W H b (selectMaterial inp.key s.material)
          (SDL_clamp (s.brushSize + inp.scroll.y) 1 64) (pointerCell inp),
        selectMaterial inp.key s.material, SDL_clamp (s.brushSize + inp.scroll.y) 1 64⟩ := by
  rw [render_of_resolve W H s inp b hr, hl, hm]
  rfl

/-- Claim C8: with the pointer cell `(cx, cy)` on the grid and a brush size `r`
in `[1, 64]`, the brush block turns the post-resolution buffer `b` into the
buffer that holds the selected material in exactly the cells of the grid
within `r div 2` of the centre in each coordinate and at distance at most
`r / 2` from it, plus the centre cell, and the old value everywhere else; a
frame with the left button held commits exactly that buffer. -/
theorem brush_stamp (W H : Nat) (b : Grid) (mat r cx cy : Int)
    (hc : inBounds W H cx cy = true) (h1 : 1 ≤ r) (h64 : r ≤ 64) :
    ∃ b', brush W H b mat r ⟨cx, cy⟩ = .ok b' ∧
      (∀ i j, b' i j =
        if (inBounds W H i j = true ∧ -(r / 2) ≤ i - cx ∧ i - cx ≤ r / 2 ∧
            -(r / 2) ≤ j - cy ∧ j - cy ≤ r / 2 ∧
            4 * ((i - cx) ^ 2 + (j - cy) ^ 2) ≤ r ^ 2) ∨ (i = cx ∧ j = cy)
        then mat else b i j) ∧
      (∀ (s : Sim) (inp : Input), inp.leftMouse = true → pointerCell inp = ⟨cx, cy⟩ →
        resolve W H s.grid = .ok b → selectMaterial inp.key s.material = mat →
        SDL_clamp (s.brushSize + inp.scroll.y) 1 64 = r →
        render W H s inp = .ok ⟨b', mat, r⟩) := by
  refine ⟨_, brush_eq W H b mat r ⟨cx, cy⟩ hc, ?_, ?_⟩
  · intro i j
    unfold stamped
    have hdiv : Int.tdiv r 2 = r / 2 := Int.tdiv_eq_ediv (by omega) (by decide)
    simp only [hdiv, sq]
    by_cases h : i = cx ∧ j = cy
    · simp [h]
    · simp only [h, false_or, or_false]
  · intro s inp hl hp hr hmat hsize
    have hm : inBounds W H (pointerCell inp).x (pointerCell inp).y = true := by
      rw [hp]; exact hc
    rw [render_brush_on W H s inp b hr hl hm, hp, hmat, hsize]

theorem brush_stamp_witness :
    inBounds 10 10 3 3 = true ∧ (1 : Int) ≤ 4 ∧ (4 : Int) ≤ 64 ∧
    ∃ b', brush 10 10 slideGrid 1 4 ⟨3, 3⟩ = .ok b' ∧
      (∀ i j, b' i j =
        if (inBounds 10 10 i j = true ∧ -((4 : Int) / 2) ≤ i - 3 ∧ i - 3 ≤ (4 : Int) / 2 ∧
            -((4 : Int) / 2) ≤ j - 3 ∧ j - 3 ≤ (4 : Int) / 2 ∧
            4 * ((i - 3) ^ 2 + (j - 3) ^ 2) ≤ (4 : Int) ^ 2) ∨ (i = 3 ∧ j = 3)
        then 1 else slideGrid i j) ∧
      (∀ (s : Sim) (inp : Input), inp.leftMouse = true → pointerCell inp = ⟨3, 3⟩ →
        resolve 10 10 s.grid = .ok slideGrid → selectMaterial inp.key s.material = 1 →
        SDL_clamp (s.brushSize + inp.scroll.y) 1 64 = 4 →
        render 10 10 s inp = .ok ⟨b', 1, 4⟩) :=
  ⟨by decide, by decide, by decide,
    brush_stamp 10 10 slideGrid 1 4 3 3 (by decide) (by decide) (by decide)⟩

/-- Claim C9: with brush size 1 and the pointer cell `(cx, cy)` on the grid, the
brush block writes the selected material to the cell `(cx, cy)` and to no
other cell of the scratch buffer, and a frame with the left button held
commits that buffer. -/
theorem brush_size_one (W H : Nat) (b : Grid) (mat cx cy : Int)
    (hc : inBounds W H cx cy = true) :
    ∃ b', brush W H b mat 1 ⟨cx, cy⟩ = .ok b' ∧
      b' cx cy = mat ∧ (∀ i j, ¬ (i = cx ∧ j = cy) → b' i j = b i j) ∧
      (∀ (s : Sim) (inp : Input), inp.leftMouse = true → pointerCell inp = ⟨cx, cy⟩ →
        resolve W H s.grid = .ok b → selectMaterial inp.key s.material = mat →
        SDL_clamp (s.brushSize + inp.scroll.y) 1 64 = 1 →
        render W H s inp = .ok ⟨b', mat, 1⟩) := by
  refine ⟨_, brush_eq W H b mat 1 ⟨cx, cy⟩ hc, ?_, ?_, ?_⟩
  · simp [stamped]
  · intro i j hne
    unfold stamped
    have hdiv : Int.tdiv 1 2 = 0 := by decide
    rw [if_neg]
    rintro (h | h)
    · exact hne h
    · rw [hdiv] at h
      dsimp only at h
      apply hne
      constructor <;> omega
  · intro s inp hl hp hr hmat hsize
    have hm : inBounds W H (pointerCell inp).x (pointerCell inp).y = true := by
      rw [hp]; exact hc
    rw [render_brush_on W H s inp b hr hl hm, hp, hmat, hsize]

theorem brush_size_one_witness :
    inBounds 10 10 3 3 = true ∧
    ∃ b', brush 10 10 (fun _ _ => 0) 2 1 ⟨3, 3⟩ = .ok b' ∧
      b' 3 3 = 2 ∧ (∀ i j, ¬ (i = 3 ∧ j = 3) → b' i j = (fun _ _ => 0 : Grid) i j) ∧
      (∀ (s : Sim) (inp : Input), inp.leftMouse = true → pointerCell inp = ⟨3, 3⟩ →
        resolve 10 10 s.grid = .ok (fun _ _ => 0) → selectMaterial inp.key s.material = 2 →
        SDL_clamp (s.brushSize + inp.scroll.y) 1 64 = 1 →
        render 10 10 s inp = .ok ⟨b', 2, 1⟩) :=
  ⟨by decide, brush_size_one 10 10 (fun _ _ => 0) 2 3 3 (by decide)⟩

/-! ## The empty grid -/

theorem target_of_empty {W H : Nat} {grid : Grid}
    (hz : ∀ x y, inBounds W H x y = true → grid x y = 0) (x y : Int) :
    target W H grid x y = none := by
  unfold target
  by_cases hb : inBounds W H x y = true
  · simp [hb, hz x y hb]
  · simp [hb]

theorem resolved_of_empty {W H : Nat} {grid : Grid}
    (hz : ∀ x y, inBounds W H x y = true → grid x y = 0) : resolved W H grid = grid := by
  funext i j
  simp [resolved, target_of_empty hz]

/-- Claim C10: if every cell of the grid is `0`, a frame with the left button up
completes and commits the same grid, and so does any sequence of such frames;
every cell is still `0`. -/
theorem empty_grid_fixed (W H : Nat) (s : Sim)
    (hz : ∀ x y, inBounds W H x y = true → s.grid x y = 0) :
    (∀ inp : Input, inp.leftMouse = false →
      ∃ s', render W H s inp = .ok s' ∧ s'.grid = s.grid) ∧
    (∀ inputs : List Input, (∀ inp ∈ inputs, inp.leftMouse = false) →
      ∃ s', frames W H s inputs = .ok s' ∧ s'.grid = s.grid ∧
        ∀ x y, inBounds W H x y = true → s'.grid x y = 0) := by
  have hsafe : ∀ g : Grid, (∀ x y, inBounds W H x y = true → g x y = 0) → TableSafe W H g := by
    intro g hg x y hxy
    rw [hg x y hxy]; decide
  constructor
  · intro inp hoff
    exact ⟨_, render_brush_off W H s inp (hsafe _ hz) hoff, resolved_of_empty hz⟩
  · intro inputs
    induction inputs generalizing s with
    | nil => exact fun _ => ⟨s, rfl, rfl, hz⟩
    | cons inp rest ih =>
      intro hoff
      have hstep := render_brush_off W H s inp (hsafe _ hz) (hoff inp (List.mem_cons_self _ _))
      have hres : resolved W H s.grid = s.grid := resolved_of_empty hz
      obtain ⟨s', h1, h2, h3⟩ := ih
        ⟨resolved W H s.grid, selectMaterial inp.key s.material,
          SDL_clamp (s.brushSize + inp.scroll.y) 1 64⟩
        (by intro x y hxy; show resolved W H s.grid x y = 0; rw [hres]; exact hz x y hxy)
        (fun i hi => hoff i (List.mem_cons_of_mem _ hi))
      refine ⟨s', ?_, ?_, h3⟩
      · rw [frames_cons, hstep]; exact h1
      · rw [h2]; exact hres

theorem empty_grid_fixed_witness :
    (∀ x y, inBounds 10 10 x y = true → (fun _ _ => 0 : Grid) x y = 0) ∧
    (∀ inp : Input, inp.leftMouse = false →
      ∃ s', render 10 10 ⟨fun _ _ => 0, 1, 16⟩ inp = .ok s' ∧ s'.grid = fun _ _ => 0) ∧
    (∀ inputs : List Input, (∀ inp ∈ inputs, inp.leftMouse = false) →
      ∃ s', frames 10 10 ⟨fun _ _ => 0, 1, 16⟩ inputs = .ok s' ∧ s'.grid = (fun _ _ => 0) ∧
        ∀ x y, inBounds 10 10 x y = true → s'.grid x y = 0) :=
  ⟨fun _ _ _ => rfl, empty_grid_fixed 10 10 ⟨fun _ _ => 0, 1, 16⟩ (fun _ _ _ => rfl)⟩

/-! ## Cells that do not move -/

theorem target_none_of_rules {W H : Nat} {grid : Grid} {x y : Int} {mat : Material}
    (hm : materialAt (grid x y) = .ok mat)
    (hno : ∀ r ∈ mat.rules,
      ¬ (canMove W H grid r.1 x y = .ok true ∧ canMove W H grid r.2 x y = .ok true)) :
    target W H grid x y = none := by
  unfold target
  split
  · have hf : (rulesOf (grid x y)).find? (succeeds W H grid x y) = none := by
      rw [List.find?_eq_none]
      intro r hr
      have hr' : r ∈ mat.rules := by
        simpa [rulesOf, hm] using hr
      have := hno r hr'
      rw [← succeeds_iff_canMove] at this
      exact this
    rw [hf]; rfl
  · rfl

/-- Claim C11: after a complete resolution pass every occupied cell none of whose
rules succeeds holds its pre-step value in the scratch buffer; in particular
every Wall cell still holds Wall after the pass and after a frame with the
left button up. -/
theorem resolve_keeps_unmoved (W H : Nat) (grid : Grid) (hs : TableSafe W H grid) :
    ∃ b, resolve W H grid = .ok b ∧
      (∀ (x y : Int) (mat : Material), inBounds W H x y = true → 0 < grid x y →
        materialAt (grid x y) = .ok mat →
        (∀ r ∈ mat.rules,
          ¬ (canMove W H grid r.1 x y = .ok true ∧ canMove W H grid r.2 x y = .ok true)) →
        b x y = grid x y) ∧
      (∀ x y : Int, inBounds W H x y = true → grid x y = 1 → b x y = 1) ∧
      (∀ (s : Sim) (inp : Input), s.grid = grid → inp.leftMouse = false →
        ∃ s', render W H s inp = .ok s' ∧
          ∀ x y : Int, inBounds W H x y = true → grid x y = 1 → s'.grid x y = 1) := by
  have hwall : ∀ x y : Int, grid x y = 1 → resolved W H grid x y = 1 := by
    intro x y h1
    rw [resolved_of_stay (by omega) (target_eq_none_of_ne (by omega)), h1]
  refine ⟨_, resolve_spec W H grid hs, ?_, fun x y _ h1 => hwall x y h1, ?_⟩
  · intro x y mat _ hpos hm hno
    exact resolved_of_stay (by omega) (target_none_of_rules hm hno)
  · intro s inp hg hoff
    subst hg
    exact ⟨_, render_brush_off W H s inp hs hoff, fun x y _ h1 => hwall x y h1⟩

theorem resolve_keeps_unmoved_witness :
    TableSafe 10 10 slideGrid ∧
    ∃ b, resolve 10 10 slideGrid = .ok b ∧
      (∀ (x y : Int) (mat : Material), inBounds 10 10 x y = true → 0 < slideGrid x y →
        materialAt (slideGrid x y) = .ok mat →
        (∀ r ∈ mat.rules,
          ¬ (canMove 10 10 slideGrid r.1 x y = .ok true ∧
            canMove 10 10 slideGrid r.2 x y = .ok true)) →
        b x y = slideGrid x y) ∧
      (∀ x y : Int, inBounds 10 10 x y = true → slideGrid x y = 1 → b x y = 1) ∧
      (∀ (s : Sim) (inp : Input), s.grid = slideGrid → inp.leftMouse = false →
        ∃ s', render 10 10 s inp = .ok s' ∧
          ∀ x y : Int, inBounds 10 10 x y = true → slideGrid x y = 1 → s'.grid x y = 1) :=
  ⟨tableSafe_slideGrid 10 10, resolve_keeps_unmoved 10 10 slideGrid (tableSafe_slideGrid 10 10)⟩

/-! ## Occupancy of cells with other ids -/

/-- Claim C12, as stated, fails: on the program's grid `canMove` returns `false`
for a rule offset pointing at the in-bounds cell `(1,1)` when that cell holds
the id `7` (not below `materialsLength`) or the id `-1`, while it returns `true`
when the cell holds `0`. -/
theorem canMove_invalid_id_is_occupied :
    inBounds WIN_WIDTH WIN_HEIGHT 1 1 = true ∧ materialsLength ≤ 7 ∧
      canMove WIN_WIDTH WIN_HEIGHT (oddGrid 7) ⟨0, 1⟩ 1 0 = .ok false ∧
      canMove WIN_WIDTH WIN_HEIGHT (oddGrid (-1)) ⟨0, 1⟩ 1 0 = .ok false ∧
      canMove WIN_WIDTH WIN_HEIGHT (oddGrid 0) ⟨0, 1⟩ 1 0 = .ok true :=
  ⟨by decide, by decide, rfl, rfl, rfl⟩

/-- Claim C12, amended: for an in-bounds target cell `canMove` returns `true`
exactly when the cell holds `0`; a cell holding an id outside
`[0, materialsLength)` counts as occupied, `canMove` returns `false` for it. -/
theorem canMove_occupied_unless_zero (W H : Nat) (grid : Grid) (rule : coords) (x y : Int)
    (hb : inBounds W H (x + rule.x) (y + rule.y) = true) :
    (canMove W H grid rule x y = .ok true ↔ grid (x + rule.x) (y + rule.y) = 0) ∧
      ((grid (x + rule.x) (y + rule.y) < 0 ∨ materialsLength ≤ grid (x + rule.x) (y + rule.y)) →
        canMove W H grid rule x y = .ok false) := by
  rw [canMove_eq]
  constructor
  · simp [free, hb]
  · intro hid
    have hne : grid (x + rule.x) (y + rule.y) ≠ 0 := by
      have : materialsLength = 4 := rfl
      omega
    simp [free, hb, hne]

theorem canMove_occupied_unless_zero_witness :
    inBounds 10 10 (1 + 0) (0 + 1) = true ∧
    (canMove 10 10 (oddGrid 7) ⟨0, 1⟩ 1 0 = .ok true ↔ oddGrid 7 (1 + 0) (0 + 1) = 0) ∧
      ((oddGrid 7 (1 + 0) (0 + 1) < 0 ∨ materialsLength ≤ oddGrid 7 (1 + 0) (0 + 1)) →
        canMove 10 10 (oddGrid 7) ⟨0, 1⟩ 1 0 = .ok false) :=
  ⟨by decide, canMove_occupied_unless_zero 10 10 (oddGrid 7) ⟨0, 1⟩ 1 0 (by decide)⟩

/-! ## isLiquid -/

/-- Claim C13: for every material table whose entries have the sixteen effect
slots of `struct Material`, `isLiquid(id)` is `false` when `id ≤ 0` or
`id ≥ materialsLength`; otherwise it reads `materials[id]`, which is inside the
table, and is `true` exactly when the type of that material's first effect is
the string `"Liquid"`.  It never fails, so it never indexes outside the table.
The program's `isLiquid` is the instance at `materials`. -/
theorem isLiquid_contract (table : List Material)
    (hw : ∀ mat ∈ table, mat.effects.length = 16) (i : Int) :
    ((i ≤ 0 ∨ (table.length : Int) ≤ i) → isLiquidIn table i = .ok false) ∧
    ((0 < i ∧ i < (table.length : Int)) →
      ∃ mat e, table[i.toNat]? = some mat ∧ materialIn table i = .ok mat ∧
        mat.effects[0]? = some e ∧
        isLiquidIn table i = .ok (e.type == "Liquid") ∧
        (isLiquidIn table i = .ok true ↔ e.type = "Liquid")) ∧
    (∃ r, isLiquidIn table i = .ok r) ∧
    isLiquid i = isLiquidIn materials i := by
  have hout : (i ≤ 0 ∨ (table.length : Int) ≤ i) → isLiquidIn table i = .ok false := by
    intro h
    unfold isLiquidIn
    have : (decide (i ≤ 0) || decide (i ≥ (table.length : Int))) = true := by
      simpa using h
    rw [if_pos this]; rfl
  have hin : (0 < i ∧ i < (table.length : Int)) →
      ∃ mat e, table[i.toNat]? = some mat ∧ materialIn table i = .ok mat ∧
        mat.effects[0]? = some e ∧
        isLiquidIn table i = .ok (e.type == "Liquid") ∧
        (isLiquidIn table i = .ok true ↔ e.type = "Liquid") := by
    rintro ⟨h0, h1⟩
    have hlt : i.toNat < table.length := by omega
    have hget : table[i.toNat]? = some table[i.toNat] := List.getElem?_eq_getElem hlt
    have hmem : table[i.toNat] ∈ table := List.getElem_mem hlt
    have hlen := hw _ hmem
    have hpos : 0 < table[i.toNat].effects.length := by omega
    have heff : table[i.toNat].effects[0]? = some table[i.toNat].effects[0] :=
      List.getElem?_eq_getElem hpos
    have hmat : materialIn table i = .ok table[i.toNat] := by
      unfold materialIn
      rw [if_pos (by omega), hget]
    have hl : isLiquidIn table i = .ok (table[i.toNat].effects[0].type == "Liquid") := by
      unfold isLiquidIn
      have hc : ¬ (decide (i ≤ 0) || decide (i ≥ (table.length : Int))) = true := by
        simp only [Bool.or_eq_true, decide_eq_true_eq]
        omega
      rw [if_neg hc, hmat]
      simp only [bind, Except.bind, heff]
      rfl
    refine ⟨_, _, hget, hmat, heff, hl, ?_⟩
    rw [hl]
    simp
  refine ⟨hout, hin, ?_, rfl⟩
  by_cases h : i ≤ 0 ∨ (table.length : Int) ≤ i
  · exact ⟨_, hout h⟩
  · have h' : 0 < i ∧ i < (table.length : Int) := by omega
    obtain ⟨_, e, _, _, _, he, _⟩ := hin h'
    exact ⟨_, he⟩

theorem isLiquid_contract_witness :
    (∀ mat ∈ liquidTable, mat.effects.length = 16) ∧
    isLiquidIn liquidTable 1 = .ok true ∧ isLiquidIn liquidTable 2 = .ok false ∧
    isLiquidIn liquidTable 0 = .ok false ∧ isLiquidIn liquidTable 3 = .ok false ∧
    isLiquidIn liquidTable (-1) = .ok false ∧
    (∀ mat ∈ materials, mat.effects.length = 16) ∧
    isLiquid 2 = .ok false ∧ isLiquid 4 = .ok false := by
  have hw : ∀ mat ∈ liquidTable, mat.effects.length = 16 := by decide
  have hp : ∀ mat ∈ materials, mat.effects.length = 16 := by decide
  refine ⟨hw, ?_, ?_, (isLiquid_contract liquidTable hw 0).1 (by decide),
    (isLiquid_contract liquidTable hw 3).1 (by decide),
    (isLiquid_contract liquidTable hw (-1)).1 (by decide), hp, ?_, ?_⟩
  · obtain ⟨mat, e, hm, _, he, _, hiff⟩ := (isLiquid_contract liquidTable hw 1).2.1 (by decide)
    have h1 : mat = ⟨"Water", (0, 0, 255), List.replicate 8 zeroRule,
        ⟨"Liquid", List.replicate 8 0⟩ :: List.replicate 15 zeroEffect⟩ :=
      (Option.some.inj hm).symm
    subst h1
    have h2 : e = ⟨"Liquid", List.replicate 8 0⟩ := (Option.some.inj he).symm
    subst h2
    exact hiff.mpr rfl
  · obtain ⟨mat, e, hm, _, he, hl, _⟩ := (isLiquid_contract liquidTable hw 2).2.1 (by decide)
    have h1 : mat = ⟨"Stone", (90, 90, 90), List.replicate 8 zeroRule,
        ⟨"Solid", List.replicate 8 0⟩ :: List.replicate 15 zeroEffect⟩ :=
      (Option.some.inj hm).symm
    subst h1
    have h2 : e = ⟨"Solid", List.replicate 8 0⟩ := (Option.some.inj he).symm
    subst h2
    rw [hl]
    rfl
  · rw [(isLiquid_contract materials hp 2).2.2.2]
    obtain ⟨mat, e, hm, _, he, hl, _⟩ := (isLiquid_contract materials hp 2).2.1 (by decide)
    have h1 : mat = materials[2] := (Option.some.inj hm).symm
    subst h1
    have h2 : e = zeroEffect := (Option.some.inj he).symm
    subst h2
    rw [hl]
    rfl
  · rw [(isLiquid_contract materials hp 4).2.2.2]
    exact (isLiquid_contract materials hp 4).1 (by decide)

/-! ## move -/

/-- Claim C14: for a cell `(x, y)` of the grid and the target `t = (x, y) + rule`,
if `t` is in bounds and `grid[t] == 0` then `move` returns `true` with
`bufferGrid[t] = grid[x][y]`, `bufferGrid[x][y] = grid[t]` and every other
scratch cell unchanged; otherwise it returns `false` and the scratch buffer
unchanged.  (`move` returns only the scratch buffer: `grid` is never written.) -/
theorem move_guarded_swap (W H : Nat) (grid bufferGrid : Grid) (rule : coords) (x y : Int)
    (hxy : inBounds W H x y = true) :
    ((inBounds W H (x + rule.x) (y + rule.y) = true ∧ grid (x + rule.x) (y + rule.y) = 0) →
      ∃ b', move W H grid bufferGrid rule x y = .ok (true, b') ∧
        b' (x + rule.x) (y + rule.y) = grid x y ∧
        b' x y = grid (x + rule.x) (y + rule.y) ∧
        ∀ i j, ¬ (i = x + rule.x ∧ j = y + rule.y) → ¬ (i = x ∧ j = y) →
          b' i j = bufferGrid i j) ∧
    (¬ (inBounds W H (x + rule.x) (y + rule.y) = true ∧ grid (x + rule.x) (y + rule.y) = 0) →
      move W H grid bufferGrid rule x y = .ok (false, bufferGrid)) := by
  rw [move_eq W H grid bufferGrid rule x y hxy]
  constructor
  · intro h
    have hf : free W H grid (x + rule.x) (y + rule.y) = true := (free_iff _ _ _ _ _).mpr h
    rw [if_pos hf]
    refine ⟨_, rfl, ?_, ?_, ?_⟩
    · simp only [relocate, setCell]
      by_cases hc : x + rule.x = x ∧ y + rule.y = y
      · rw [if_pos hc, hc.1, hc.2]
      · rw [if_neg hc]; simp
    · simp [relocate, setCell]
    · intro i j h1 h2
      simp [relocate, setCell, h1, h2]
  · intro h
    have hf : ¬ free W H grid (x + rule.x) (y + rule.y) = true :=
      fun hf => h ((free_iff _ _ _ _ _).mp hf)
    rw [if_neg hf]

theorem move_guarded_swap_witness :
    inBounds 10 10 5 5 = true ∧
    ((inBounds 10 10 (5 + 1) (5 + 1) = true ∧ slideGrid (5 + 1) (5 + 1) = 0) →
      ∃ b', move 10 10 slideGrid slideGrid ⟨1, 1⟩ 5 5 = .ok (true, b') ∧
        b' (5 + 1) (5 + 1) = slideGrid 5 5 ∧
        b' 5 5 = slideGrid (5 + 1) (5 + 1) ∧
        ∀ i j, ¬ (i = 5 + 1 ∧ j = 5 + 1) → ¬ (i = 5 ∧ j = 5) →
          b' i j = slideGrid i j) ∧
    (¬ (inBounds 10 10 (5 + 0) (5 + 1) = true ∧ slideGrid (5 + 0) (5 + 1) = 0) →
      move 10 10 slideGrid slideGrid ⟨0, 1⟩ 5 5 = .ok (false, slideGrid)) :=
  ⟨by decide, (move_guarded_swap 10 10 slideGrid slideGrid ⟨1, 1⟩ 5 5 (by decide)).1,
    (move_guarded_swap 10 10 slideGrid slideGrid ⟨0, 1⟩ 5 5 (by decide)).2⟩

/-! ## Order of the scan -/

/-- The scan computes `resolved` in whatever order it visits the cells. -/
theorem sweep_eq_resolved (W H : Nat) (grid : Grid) (l : List (Int × Int))
    (hl : ∀ c : Int × Int, c ∈ l ↔ inBounds W H c.1 c.2 = true) :
    l.foldl (stepCell W H grid) grid = resolved W H grid := by
  funext i j
  unfold resolved
  by_cases hm : (target W H grid i j).isSome = true
  · rw [if_pos hm]
    obtain ⟨t, ht⟩ := Option.isSome_iff_exists.mp hm
    exact sweep_mover W H grid _ _ i j ((hl (i, j)).mpr (target_spec ht).1) hm
  · rw [if_neg hm]
    have hd : target W H grid i j = none := by
      cases h : target W H grid i j with
      | none => rfl
      | some t => rw [h] at hm; simp at hm
    by_cases hex : target W H grid i (j - 1) = some (i, j) ∨
        target W H grid (i + 1) (j - 1) = some (i, j) ∨ target W H grid (i - 1) (j - 1) = some (i, j)
    · rw [if_pos hex]
      apply sweep_filled W H grid _ _ i j 2 (fun s _ h => (target_near h).1) hd
      left
      rcases hex with h | h | h
      · exact ⟨(i, j - 1), (hl _).mpr (target_spec h).1, h⟩
      · exact ⟨(i + 1, j - 1), (hl _).mpr (target_spec h).1, h⟩
      · exact ⟨(i - 1, j - 1), (hl _).mpr (target_spec h).1, h⟩
    · rw [if_neg hex]
      apply sweep_untouched W H grid _ _ i j _ hd
      intro s _ hts
      apply hex
      obtain ⟨_, h2, h3⟩ := target_near hts
      obtain ⟨s1, s2⟩ := s
      simp only at h2 h3 hts
      have e2 : s2 = j - 1 := by omega
      subst e2
      rcases h3 with h3 | h3 | h3
      · left; subst h3; exact hts
      · right; left
        have : s1 = i + 1 := by omega
        rw [← this]; exact hts
      · right; right
        have : s1 = i - 1 := by omega
        rw [← this]; exact hts

theorem resolveIn_of_safe (W H : Nat) (grid : Grid) (l : List (Int × Int))
    (hl : ∀ c : Int × Int, c ∈ l ↔ inBounds W H c.1 c.2 = true) (hs : TableSafe W H grid) :
    resolveIn W H grid l = .ok (resolved W H grid) := by
  unfold resolveIn initBuffer
  rw [foldlM_ok _ (stepCell W H grid) l
    (fun c hc b => scanCell_eq W H grid b c.1 c.2 ((hl c).mp hc) (hs _ _ ((hl c).mp hc)))]
  rw [sweep_eq_resolved W H grid l hl]

theorem scanCell_of_large (W H : Nat) (grid b : Grid) (x y : Int)
    (hxy : inBounds W H x y = true) (h : ¬ grid x y < materialsLength) :
    scanCell W H grid b x y = .error .tableIndex := by
  have h4 : 4 ≤ grid x y := by
    have : materialsLength = 4 := rfl
    omega
  unfold scanCell
  simp only [readCell, hxy, if_true, bind, Except.bind]
  have h0 : ¬ grid x y ≤ 0 := by omega
  simp only [h0, if_false]
  have hn : materials[(grid x y).toNat]? = none := by
    apply List.getElem?_eq_none
    have : materials.length = 4 := rfl
    omega
  have : materialAt (grid x y) = .error .tableIndex := by
    unfold materialAt
    simp [show 0 ≤ grid x y by omega, hn]
  rw [this]

theorem foldlM_stops {α β : Type} (f : β → α → Except Fault β) (l : List α) (a : α)
    (ha : a ∈ l) (hf : ∀ b, ∃ e, f b a = .error e) (b : β) :
    ∃ e, l.foldlM f b = .error e := by
  induction l generalizing b with
  | nil => cases ha
  | cons a' l ih =>
    rw [List.foldlM_cons]
    cases hfa : f b a' with
    | error e => exact ⟨e, rfl⟩
    | ok b' =>
      rcases List.mem_cons.mp ha with rfl | h
      · obtain ⟨e, he⟩ := hf b
        rw [hfa] at he; cases he
      · exact ih h b'

theorem resolveIn_of_large_id (W H : Nat) (grid : Grid) (l : List (Int × Int))
    (hl : ∀ c : Int × Int, c ∈ l ↔ inBounds W H c.1 c.2 = true) (hs : ¬ TableSafe W H grid) :
    resolveIn W H grid l = .error .tableIndex := by
  unfold TableSafe at hs
  push_neg at hs
  obtain ⟨x, y, hxy, hbad⟩ := hs
  have hstop := foldlM_stops (fun b (c : Int × Int) => scanCell W H grid b c.1 c.2) l (x, y)
    ((hl (x, y)).mpr hxy)
    (fun b => ⟨_, scanCell_of_large W H grid b x y hxy (by omega)⟩) (initBuffer grid)
  obtain ⟨e, he⟩ := hstop
  have := foldlM_fault (fun b (c : Int × Int) => scanCell W H grid b c.1 c.2) l
    (fun c hc b e h => scanCell_fault W H grid b c.1 c.2 e ((hl c).mp hc) h) (initBuffer grid) e he
  subst this
  exact he

theorem foldlM_scanOrder {β : Type} (W : Nat) (g : β → Int × Int → Except Fault β)
    (ys : List Nat) (b : β) :
    (ys.flatMap (fun (y : Nat) =>
        (List.range W).map (fun (x : Nat) => ((x : Int), (y : Int))))).foldlM g b =
      ys.foldlM (fun b (y : Nat) =>
        (List.range W).foldlM (fun b (x : Nat) => g b ((x : Int), (y : Int))) b) b := by
  induction ys generalizing b with
  | nil => rfl
  | cons y ys ih =>
    rw [List.flatMap_cons, List.foldlM_append, List.foldlM_cons, List.foldlM_map]
    congr 1
    funext b'
    exact ih b'

theorem resolve_eq_resolveIn (W H : Nat) (grid : Grid) :
    resolve W H grid = resolveIn W H grid (scanOrder W H) := by
  unfold resolve resolveIn scanOrder scanRow
  rw [foldlM_scanOrder]

/-- Claim C15: with the program's material table the resolution scan gives the
same result in whatever order the cells are visited: scanning the cells in any
permutation of the row-major order returns exactly what `render`'s scan
returns. -/
theorem resolve_order_independent (W H : Nat) (grid : Grid) (order : List (Int × Int))
    (hp : order.Perm (scanOrder W H)) :
    resolveIn W H grid order = resolve W H grid := by
  have hl : ∀ c : Int × Int, c ∈ order ↔ inBounds W H c.1 c.2 = true :=
    fun c => (hp.mem_iff).trans (mem_scanOrder W H c)
  rw [resolve_eq_resolveIn]
  by_cases hs : TableSafe W H grid
  · rw [resolveIn_of_safe W H grid order hl hs,
      resolveIn_of_safe W H grid _ (mem_scanOrder W H) hs]
  · rw [resolveIn_of_large_id W H grid order hl hs,
      resolveIn_of_large_id W H grid _ (mem_scanOrder W H) hs]

theorem resolve_order_independent_witness :
    (scanOrder 3 2).reverse.Perm (scanOrder 3 2) ∧
      resolveIn 3 2 clashGrid (scanOrder 3 2).reverse = resolve 3 2 clashGrid :=
  ⟨List.reverse_perm _,
    resolve_order_independent 3 2 clashGrid (scanOrder 3 2).reverse (List.reverse_perm _)⟩

/-! ## Brush size -/

theorem SDL_clamp_eq (x : Int) : SDL_clamp x 1 64 = min (max x 1) 64 := by
  unfold SDL_clamp
  split_ifs <;> omega

theorem SDL_clamp_range (x : Int) : 1 ≤ SDL_clamp x 1 64 ∧ SDL_clamp x 1 64 ≤ 64 := by
  unfold SDL_clamp
  split_ifs <;> omega

/-- A frame from a state with valid ids completes in a state with valid ids. -/
theorem render_valid (W H : Nat) (s : Sim) (inp : Input)
    (hg : ValidIds W H s.grid) (hm : 0 ≤ s.material ∧ s.material < materialsLength) :
    ∃ s', render W H s inp = .ok s' ∧ ValidIds W H s'.grid ∧
      (0 ≤ s'.material ∧ s'.material < materialsLength) ∧
      s'.brushSize = SDL_clamp (s.brushSize + inp.scroll.y) 1 64 := by
  have hsel : 0 ≤ selectMaterial inp.key s.material ∧
      selectMaterial inp.key s.material < materialsLength := by
    rcases selectMaterial_cases inp.key s.material with h | h
    · rw [h]; exact hm
    · exact h
  refine ⟨_, render_eq W H s inp (tableSafe_of_validIds hg), ?_, hsel, rfl⟩
  have hres : ∀ x y, inBounds W H x y = true →
      0 ≤ resolved W H s.grid x y ∧ resolved W H s.grid x y < materialsLength := by
    intro x y hxy
    rcases resolved_values W H s.grid x y with h | h | h
    · rw [h]; decide
    · rw [h]; decide
    · rw [h]; exact hg x y hxy
  intro x y hxy
  simp only
  split_ifs
  · rcases stamped_values W H (resolved W H s.grid) (selectMaterial inp.key s.material)
      (SDL_clamp (s.brushSize + inp.scroll.y) 1 64) (pointerCell inp) x y with h | h
    · rw [h]; exact hsel
    · rw [h]; exact hres x y hxy
  · exact hres x y hxy

theorem frames_valid (W H : Nat) (inputs : List Input) (s : Sim)
    (hg : ValidIds W H s.grid) (hm : 0 ≤ s.material ∧ s.material < materialsLength)
    (hb : 1 ≤ s.brushSize ∧ s.brushSize ≤ 64) :
    ∃ s', frames W H s inputs = .ok s' ∧ ValidIds W H s'.grid ∧
      (0 ≤ s'.material ∧ s'.material < materialsLength) ∧
      (1 ≤ s'.brushSize ∧ s'.brushSize ≤ 64) := by
  induction inputs generalizing s with
  | nil => exact ⟨s, rfl, hg, hm, hb⟩
  | cons inp rest ih =>
    obtain ⟨s₁, h₁, hg₁, hm₁, hb₁⟩ := render_valid W H s inp hg hm
    obtain ⟨s', h', hrest⟩ := ih s₁ hg₁ hm₁ (by rw [hb₁]; exact SDL_clamp_range _)
    exact ⟨s', by rw [frames_cons, h₁]; exact h', hrest⟩

/-- Claim C16: a frame never rejects a scroll value: for every prior brush size
`b` and scroll value `s` the brush size after the frame is
`min (max (b + s) 1) 64`, which is in `[1, 64]`; hence, starting from the
initial size 16, the brush size is in `[1, 64]` after every sequence of
frames. -/
theorem brush_size_clamped (W H : Nat) :
    (∀ (s : Sim) (inp : Input), TableSafe W H s.grid →
      ∃ s', render W H s inp = .ok s' ∧
        s'.brushSize = min (max (s.brushSize + inp.scroll.y) 1) 64 ∧
        1 ≤ s'.brushSize ∧ s'.brushSize ≤ 64) ∧
    (∀ (s : Sim) (inputs : List Input), ValidIds W H s.grid →
      (0 ≤ s.material ∧ s.material < materialsLength) → s.brushSize = 16 →
      ∃ s', frames W H s inputs = .ok s' ∧ 1 ≤ s'.brushSize ∧ s'.brushSize ≤ 64) := by
  constructor
  · intro s inp hs
    exact ⟨_, render_eq W H s inp hs, SDL_clamp_eq _, SDL_clamp_range _⟩
  · intro s inputs hg hm hb
    obtain ⟨s', h', _, _, hb'⟩ := frames_valid W H inputs s hg hm (by rw [hb]; decide)
    exact ⟨s', h', hb'⟩

theorem brush_size_clamped_witness :
    (∃ s', render 10 10 ⟨slideGrid, 1, 16⟩ ⟨fun _ => false, false, ⟨0, 100⟩, ⟨0, 0⟩⟩ = .ok s' ∧
      s'.brushSize = min (max ((16 : Int) + 100) 1) 64 ∧ 1 ≤ s'.brushSize ∧ s'.brushSize ≤ 64) ∧
    (∃ s', render 10 10 ⟨slideGrid, 1, 16⟩ ⟨fun _ => false, false, ⟨0, -100⟩, ⟨0, 0⟩⟩ = .ok s' ∧
      s'.brushSize = min (max ((16 : Int) + -100) 1) 64 ∧ 1 ≤ s'.brushSize ∧ s'.brushSize ≤ 64) :=
  ⟨(brush_size_clamped 10 10).1 ⟨slideGrid, 1, 16⟩ ⟨fun _ => false, false, ⟨0, 100⟩, ⟨0, 0⟩⟩
      (tableSafe_slideGrid 10 10),
    (brush_size_clamped 10 10).1 ⟨slideGrid, 1, 16⟩ ⟨fun _ => false, false, ⟨0, -100⟩, ⟨0, 0⟩⟩
      (tableSafe_slideGrid 10 10)⟩

/-! ## Movement creates nothing -/

theorem count_resolved_eq_of_still (W H : Nat) (grid : Grid) (m : Int) (hm : 0 < m)
    (hstill : ∀ x y, inBounds W H x y = true → grid x y = m → target W H grid x y = none) :
    countCells W H (resolved W H grid) m = countCells W H grid m := by
  rw [countCells_eq_card, countCells_eq_card]
  congr 1
  apply Finset.filter_congr
  intro c hc
  have hin : inBounds W H c.1 c.2 = true := (mem_scanOrder W H c).mp (List.mem_toFinset.mp hc)
  constructor
  · intro hr
    rcases resolved_pos_cases hm hr with ⟨h1, _⟩ | ⟨h1, s, hs⟩
    · exact h1
    · exfalso
      have h2 := (target_near hs).1
      have := hstill s.1 s.2 (target_spec hs).1 (by rw [h2, h1])
      rw [this] at hs
      cases hs
  · intro hg
    rw [resolved_of_stay (by omega) (hstill c.1 c.2 hin hg)]
    exact hg

/-- Claim C17: for every grid of valid ids the resolution pass completes and, for
every id `m > 0`, the number of cells holding `m` afterwards is at most the
number before; it is equal for Wall and for every id none of whose cells has a
succeeding rule; and every cell that was empty before and is non-empty
afterwards holds Sand. -/
theorem resolve_creates_nothing (W H : Nat) (grid : Grid) (hv : ValidIds W H grid) :
    ∃ b, resolve W H grid = .ok b ∧
      (∀ m, 0 < m → countCells W H b m ≤ countCells W H grid m) ∧
      countCells W H b 1 = countCells W H grid 1 ∧
      (∀ m, 0 < m →
        (∀ (x y : Int) (mat : Material), inBounds W H x y = true → grid x y = m →
          materialAt m = .ok mat → ∀ r ∈ mat.rules,
            ¬ (canMove W H grid r.1 x y = .ok true ∧ canMove W H grid r.2 x y = .ok true)) →
        countCells W H b m = countCells W H grid m) ∧
      (∀ x y : Int, inBounds W H x y = true → grid x y = 0 → b x y ≠ 0 → b x y = 2) := by
  refine ⟨_, resolve_spec W H grid (tableSafe_of_validIds hv),
    fun m hm => count_resolved_le W H grid m hm, ?_, ?_, ?_⟩
  · apply count_resolved_eq_of_still W H grid 1 (by decide)
    intro x y _ h1
    exact target_eq_none_of_ne (by omega)
  · intro m hm hno
    apply count_resolved_eq_of_still W H grid m hm
    intro x y hxy hg
    obtain ⟨mat, hmat⟩ := @materialAt_ok (grid x y) (by omega) (hv x y hxy).2
    apply target_none_of_rules hmat
    rw [hg] at hmat
    exact hno x y mat hxy hg hmat
  · intro x y _ h0 hne
    rcases resolved_values W H grid x y with h | h | h
    · exact absurd h hne
    · exact h
    · rw [h0] at h; exact absurd h hne

theorem resolve_creates_nothing_witness :
    ValidIds 3 2 clashGrid ∧
    ∃ b, resolve 3 2 clashGrid = .ok b ∧
      (∀ m, 0 < m → countCells 3 2 b m ≤ countCells 3 2 clashGrid m) ∧
      countCells 3 2 b 1 = countCells 3 2 clashGrid 1 ∧
      (∀ m, 0 < m →
        (∀ (x y : Int) (mat : Material), inBounds 3 2 x y = true → clashGrid x y = m →
          materialAt m = .ok mat → ∀ r ∈ mat.rules,
            ¬ (canMove 3 2 clashGrid r.1 x y = .ok true ∧
              canMove 3 2 clashGrid r.2 x y = .ok true)) →
        countCells 3 2 b m = countCells 3 2 clashGrid m) ∧
      (∀ x y : Int, inBounds 3 2 x y = true → clashGrid x y = 0 → b x y ≠ 0 → b x y = 2) :=
  have hv : ValidIds 3 2 clashGrid := by
    intro x y _
    show 0 ≤ clashGrid x y ∧ clashGrid x y < 4
    unfold clashGrid
    split_ifs <;> decide
  ⟨hv, resolve_creates_nothing 3 2 clashGrid hv⟩

/-! ## Settling -/

theorem potential_eq_sum (W H : Nat) (grid : Grid) :
    potential W H grid =
      ∑ c ∈ (scanOrder W H).toFinset.filter (fun c => grid c.1 c.2 = 2),
        ((H : Int) - 1 - c.2).toNat := by
  unfold potential
  rw [← List.sum_toFinset _ ((nodup_scanOrder W H).filter _), List.toFinset_filter]
  congr 1
  ext c
  simp

theorem destOf_mem_after {W H : Nat} {grid : Grid} {c : Int × Int}
    (hc : c ∈ (scanOrder W H).toFinset.filter (fun c => grid c.1 c.2 = 2)) :
    destOf W H grid c ∈
      (scanOrder W H).toFinset.filter (fun c => resolved W H grid c.1 c.2 = 2) := by
  simp only [Finset.mem_filter, List.mem_toFinset] at hc ⊢
  cases ht : target W H grid c.1 c.2 with
  | none =>
    simp only [destOf, ht, Option.getD_none]
    exact ⟨hc.1, by rw [resolved_of_stay (by omega) ht]; exact hc.2⟩
  | some t =>
    simp only [destOf, ht, Option.getD_some]
    exact ⟨(mem_scanOrder W H t).mpr (target_spec ht).2.2.1, resolved_of_target ht⟩

/-- The weight of a cell is at most the weight of the cell its content came
from, and smaller by one when the content moved. -/
theorem weight_destOf {W H : Nat} {grid : Grid} (c : Int × Int) :
    ((H : Int) - 1 - (destOf W H grid c).2).toNat ≤ ((H : Int) - 1 - c.2).toNat ∧
      ((target W H grid c.1 c.2).isSome = true →
        ((H : Int) - 1 - (destOf W H grid c).2).toNat < ((H : Int) - 1 - c.2).toNat) := by
  cases ht : target W H grid c.1 c.2 with
  | none => simp [destOf, ht]
  | some t =>
    have h2 := (target_near ht).2.1
    have hb := (inBounds_iff W H t.1 t.2).mp (target_spec ht).2.2.1
    simp only [destOf, ht, Option.getD_some, Option.isSome_some, forall_true_left]
    omega

theorem potential_resolved (W H : Nat) (grid : Grid) :
    potential W H (resolved W H grid) ≤ potential W H grid ∧
      ((∃ x y, (target W H grid x y).isSome = true) →
        potential W H (resolved W H grid) < potential W H grid) := by
  rw [potential_eq_sum, potential_eq_sum]
  have hfib : ∑ a ∈ (scanOrder W H).toFinset.filter (fun c => resolved W H grid c.1 c.2 = 2),
      ∑ c ∈ ((scanOrder W H).toFinset.filter (fun c => grid c.1 c.2 = 2)).filter
        (fun c => destOf W H grid c = a), ((H : Int) - 1 - c.2).toNat =
      ∑ c ∈ (scanOrder W H).toFinset.filter (fun c => grid c.1 c.2 = 2),
        ((H : Int) - 1 - c.2).toNat :=
    Finset.sum_fiberwise_of_maps_to (fun c hc => destOf_mem_after hc) _
  rw [← hfib]
  have hle : ∀ a ∈ (scanOrder W H).toFinset.filter (fun c => resolved W H grid c.1 c.2 = 2),
      ((H : Int) - 1 - a.2).toNat ≤
        ∑ c ∈ ((scanOrder W H).toFinset.filter (fun c => grid c.1 c.2 = 2)).filter
          (fun c => destOf W H grid c = a), ((H : Int) - 1 - c.2).toNat := by
    intro a ha
    simp only [Finset.mem_filter, List.mem_toFinset] at ha
    have hsrc : ∃ c, c ∈ ((scanOrder W H).toFinset.filter (fun c => grid c.1 c.2 = 2)).filter
        (fun c => destOf W H grid c = a) := by
      rcases resolved_pos_cases (by decide) ha.2 with ⟨h1, h2⟩ | ⟨_, s, hs⟩
      · refine ⟨a, ?_⟩
        simp only [Finset.mem_filter, List.mem_toFinset]
        exact ⟨⟨ha.1, h1⟩, by simp [destOf, h2]⟩
      · refine ⟨s, ?_⟩
        simp only [Finset.mem_filter, List.mem_toFinset]
        exact ⟨⟨(mem_scanOrder W H s).mpr (target_spec hs).1, (target_near hs).1⟩,
          by simp [destOf, hs]⟩
    obtain ⟨c, hc⟩ := hsrc
    have hd : destOf W H grid c = a := (Finset.mem_filter.mp hc).2
    calc ((H : Int) - 1 - a.2).toNat
        ≤ ((H : Int) - 1 - c.2).toNat := by rw [← hd]; exact (weight_destOf c).1
      _ ≤ _ := Finset.single_le_sum (f := fun c => ((H : Int) - 1 - c.2).toNat)
          (fun _ _ => Nat.zero_le _) hc
  refine ⟨Finset.sum_le_sum hle, ?_⟩
  rintro ⟨x, y, hxy⟩
  obtain ⟨t, ht⟩ := Option.isSome_iff_exists.mp hxy
  apply Finset.sum_lt_sum hle
  refine ⟨t, ?_, ?_⟩
  · simp only [Finset.mem_filter, List.mem_toFinset]
    exact ⟨(mem_scanOrder W H t).mpr (target_spec ht).2.2.1,
      resolved_of_target (s := (x, y)) ht⟩
  · have hc : (x, y) ∈ ((scanOrder W H).toFinset.filter (fun c => grid c.1 c.2 = 2)).filter
        (fun c => destOf W H grid c = t) := by
      simp only [Finset.mem_filter, List.mem_toFinset]
      exact ⟨⟨(mem_scanOrder W H (x, y)).mpr (target_spec ht).1, (target_near ht).1⟩,
        by simp [destOf, ht]⟩
    have hd : destOf W H grid (x, y) = t := (Finset.mem_filter.mp hc).2
    calc ((H : Int) - 1 - t.2).toNat
        < ((H : Int) - 1 - ((x, y) : Int × Int).2).toNat := by
          rw [← hd]; exact (weight_destOf (x, y)).2 hxy
      _ ≤ _ := Finset.single_le_sum (f := fun c => ((H : Int) - 1 - c.2).toNat)
          (fun _ _ => Nat.zero_le _) hc

theorem resolved_of_still {W H : Nat} {grid : Grid}
    (h : ∀ x y, target W H grid x y = none) : resolved W H grid = grid := by
  funext i j
  simp [resolved, h]

theorem potential_lt_of_changed (W H : Nat) (grid : Grid)
    (hch : ¬ SameCells W H (resolved W H grid) grid) :
    potential W H (resolved W H grid) < potential W H grid := by
  apply (potential_resolved W H grid).2
  by_contra hno
  apply hch
  have : ∀ x y, target W H grid x y = none := by
    intro x y
    cases ht : target W H grid x y with
    | none => rfl
    | some t => exact absurd ⟨x, y, by rw [ht]; rfl⟩ hno
  rw [resolved_of_still this]
  exact sameCells_refl W H grid

theorem tableSafe_resolved {W H : Nat} {grid : Grid} (hs : TableSafe W H grid) :
    TableSafe W H (resolved W H grid) := by
  intro x y hxy
  rcases resolved_values W H grid x y with h | h | h
  · rw [h]; decide
  · rw [h]; decide
  · rw [h]; exact hs x y hxy

theorem frames_of_fixed (W H : Nat) (inputs : List Input)
    (hoff : ∀ inp ∈ inputs, inp.leftMouse = false) (s : Sim) (hs : TableSafe W H s.grid)
    (hfix : SameCells W H (resolved W H s.grid) s.grid) :
    ∃ s', frames W H s inputs = .ok s' ∧ TableSafe W H s'.grid ∧
      SameCells W H (resolved W H s'.grid) s'.grid := by
  induction inputs generalizing s with
  | nil => exact ⟨s, rfl, hs, hfix⟩
  | cons inp rest ih =>
    have hstep := render_brush_off W H s inp hs (hoff inp (List.mem_cons_self _ _))
    obtain ⟨s', h', hrest⟩ := ih (fun i hi => hoff i (List.mem_cons_of_mem _ hi))
      ⟨resolved W H s.grid, selectMaterial inp.key s.material,
        SDL_clamp (s.brushSize + inp.scroll.y) 1 64⟩
      (tableSafe_resolved hs) (resolved_congr hfix)
    exact ⟨s', by rw [frames_cons, hstep]; exact h', hrest⟩

theorem frames_settle (W H : Nat) (inputs : List Input)
    (hoff : ∀ inp ∈ inputs, inp.leftMouse = false) (s : Sim) (hs : TableSafe W H s.grid)
    (hp : potential W H s.grid ≤ inputs.length) :
    ∃ s', frames W H s inputs = .ok s' ∧ TableSafe W H s'.grid ∧
      SameCells W H (resolved W H s'.grid) s'.grid := by
  induction inputs generalizing s with
  | nil =>
    refine ⟨s, rfl, hs, ?_⟩
    by_contra hch
    have := potential_lt_of_changed W H s.grid hch
    simp only [List.length_nil] at hp
    omega
  | cons inp rest ih =>
    have hoff' : ∀ i ∈ rest, i.leftMouse = false := fun i hi => hoff i (List.mem_cons_of_mem _ hi)
    have hstep := render_brush_off W H s inp hs (hoff inp (List.mem_cons_self _ _))
    by_cases hfix : SameCells W H (resolved W H s.grid) s.grid
    · obtain ⟨s', h', hrest⟩ := frames_of_fixed W H rest hoff'
        ⟨resolved W H s.grid, selectMaterial inp.key s.material,
          SDL_clamp (s.brushSize + inp.scroll.y) 1 64⟩
        (tableSafe_resolved hs) (resolved_congr hfix)
      exact ⟨s', by rw [frames_cons, hstep]; exact h', hrest⟩
    · have hlt := potential_lt_of_changed W H s.grid hfix
      obtain ⟨s', h', hrest⟩ := ih hoff'
        ⟨resolved W H s.grid, selectMaterial inp.key s.material,
          SDL_clamp (s.brushSize + inp.scroll.y) 1 64⟩
        (tableSafe_resolved hs)
        (by simp only [List.length_cons] at hp; show potential W H (resolved W H s.grid) ≤ _; omega)
      exact ⟨s', by rw [frames_cons, hstep]; exact h', hrest⟩

/-- Claim C18: with `P` the sum over all Sand cells `(x, y)` of `H - 1 - y`, a
frame with the left button up from a grid of valid ids completes and never
increases `P`, and strictly decreases it when it changes the grid; hence after
any `n ≥ P(grid)` such frames the grid is a fixed point: every further frame
with the left button up leaves it unchanged. -/
theorem grid_settles (W H : Nat) (s : Sim) (hv : ValidIds W H s.grid) :
    (∀ inp : Input, inp.leftMouse = false →
      ∃ s', render W H s inp = .ok s' ∧
        potential W H s'.grid ≤ potential W H s.grid ∧
        (¬ SameCells W H s'.grid s.grid → potential W H s'.grid < potential W H s.grid)) ∧
    (∀ inputs : List Input, (∀ inp ∈ inputs, inp.leftMouse = false) →
      potential W H s.grid ≤ inputs.length →
      ∃ s', frames W H s inputs = .ok s' ∧
        ∀ inp : Input, inp.leftMouse = false →
          ∃ s'', render W H s' inp = .ok s'' ∧ SameCells W H s''.grid s'.grid) := by
  have hs := tableSafe_of_validIds hv
  constructor
  · intro inp hoff
    exact ⟨_, render_brush_off W H s inp hs hoff, (potential_resolved W H s.grid).1,
      fun hch => potential_lt_of_changed W H s.grid hch⟩
  · intro inputs hoff hp
    obtain ⟨s', h', hs', hfix⟩ := frames_settle W H inputs hoff s hs hp
    exact ⟨s', h', fun inp hi => ⟨_, render_brush_off W H s' inp hs' hi, hfix⟩⟩

theorem grid_settles_witness :
    ValidIds 10 10 (sandAt 5 0) ∧ potential 10 10 (sandAt 5 0) = 9 ∧
    (∀ inp : Input, inp.leftMouse = false →
      ∃ s', render 10 10 ⟨sandAt 5 0, 1, 16⟩ inp = .ok s' ∧
        potential 10 10 s'.grid ≤ potential 10 10 (sandAt 5 0) ∧
        (¬ SameCells 10 10 s'.grid (sandAt 5 0) →
          potential 10 10 s'.grid < potential 10 10 (sandAt 5 0))) ∧
    (∀ inputs : List Input, (∀ inp ∈ inputs, inp.leftMouse = false) →
      potential 10 10 (sandAt 5 0) ≤ inputs.length →
      ∃ s', frames 10 10 ⟨sandAt 5 0, 1, 16⟩ inputs = .ok s' ∧
        ∀ inp : Input, inp.leftMouse = false →
          ∃ s'', render 10 10 s' inp = .ok s'' ∧ SameCells 10 10 s''.grid s'.grid) :=
  have hv : ValidIds 10 10 (sandAt 5 0) := by
    intro x y _
    show 0 ≤ sandAt 5 0 x y ∧ sandAt 5 0 x y < 4
    unfold sandAt
    split_ifs <;> decide
  ⟨hv, by decide, grid_settles 10 10 ⟨sandAt 5 0, 1, 16⟩ hv⟩

/-! ## Pointer off the grid -/

/-- Claim C19: if the pointer's grid cell `(mouse.x / PX_SIZE, mouse.y / PX_SIZE)`
is not in bounds, a frame with the left button held gives exactly the result of
the same frame with the button up, for every grid, selected material and brush
size: nothing is painted, even where the disc around the pointer would cover
cells of the grid. -/
theorem no_paint_off_grid (W H : Nat) (s : Sim) (key : String → Bool) (scroll mouse : coords)
    (hout : inBounds W H (Int.tdiv mouse.x PX_SIZE) (Int.tdiv mouse.y PX_SIZE) = false) :
    render W H s ⟨key, true, scroll, mouse⟩ = render W H s ⟨key, false, scroll, mouse⟩ := by
  unfold render
  simp only [hout, Bool.and_false, Bool.false_and]

theorem no_paint_off_grid_witness :
    inBounds WIN_WIDTH WIN_HEIGHT (Int.tdiv 1280 PX_SIZE) (Int.tdiv 100 PX_SIZE) = false ∧
      render WIN_WIDTH WIN_HEIGHT ⟨slideGrid, 1, 64⟩ ⟨fun _ => false, true, ⟨0, 0⟩, ⟨1280, 100⟩⟩ =
        render WIN_WIDTH WIN_HEIGHT ⟨slideGrid, 1, 64⟩
          ⟨fun _ => false, false, ⟨0, 0⟩, ⟨1280, 100⟩⟩ :=
  ⟨by decide,
    no_paint_off_grid WIN_WIDTH WIN_HEIGHT ⟨slideGrid, 1, 64⟩ (fun _ => false) ⟨0, 0⟩
      ⟨1280, 100⟩ (by decide)⟩

end SandEngine
